import Mathlib

/-!
Shallow embedding of the bezier-canvas spline editing engine
(`src/Point.ts`, `src/ConstructionPoint.ts`, `src/BezierUtils.ts`,
`src/BezierCanvas.ts`, `src/HistoryManagerAbstract.ts`).

Modelling conventions:
* JavaScript numbers are modelled by `ℝ`; `Math.round` by Mathlib's `round`
  (both round halves towards positive infinity); `Math.sqrt` by `Real.sqrt`.
* JavaScript division is modelled by Lean's real division, whose `x / 0 = 0`
  convention differs from IEEE `Infinity` / `NaN`; wherever a source guard
  depends on `NaN`/`Infinity` (`isNaN(k)`, `ratio !== 0`) the guard is
  embedded as the explicit condition on the operands under which the
  JavaScript test takes that branch, with a comment at the site.
* Object state is passed explicitly: a method on `BezierUtils` becomes a
  function taking the `BezierUtils` structure; the canvas engine's mutable
  `constructionPoints` array becomes a `List ConstructionPoint` argument and
  result.  The global id counter `Point.count` becomes an explicit `fresh`
  argument: each operation that constructs `Point`s is given a base id and
  allocates consecutively in source construction order.
* Mutation through an alias (`P1.x = P4.x`) becomes a functional update of
  the list entry owning that handle; such raw field writes copy coordinates
  only (they bypass the rounding `xCoord`/`yCoord` setters, which matters
  for the integrality claims).
-/

open scoped Classical

noncomputable section

namespace BC

/-- `Point` from `src/Point.ts`: a 2-D coordinate with identity `id`, an
`active` flag, and a non-owning `parent` back-reference (modelled as the
owning knot's `id`).  The public fields `x`,`y` hold the raw values. -/
structure Point where
  id : ℕ
  x : ℝ
  y : ℝ
  active : Bool
  parent : Option ℕ

/-- `new Point(x, y)`: the constructor assigns through the `xCoord`/`yCoord`
setters, which apply `Math.round`; `active` starts `false`, `parent` `null`. -/
def mkPoint (id : ℕ) (x y : ℝ) : Point :=
  ⟨id, (round x : ℤ), (round y : ℤ), false, none⟩

/-- `Point.clone()`: `new Point(this.x, this.y)` with a fresh id. -/
def Point.clone (p : Point) (fresh : ℕ) : Point :=
  mkPoint fresh p.x p.y

/-- Raw field writes `p.x = q.x; p.y = q.y` (they bypass the rounding
setters and keep `id`/`active`/`parent`). -/
def Point.setCoords (p : Point) (x y : ℝ) : Point :=
  { p with x := x, y := y }

/-- `BezierCanvas.getDistance`: Euclidean distance via `Math.sqrt`. -/
def getDistance (a b : Point) : ℝ :=
  Real.sqrt ((a.x - b.x) ^ 2 + (a.y - b.y) ^ 2)

/-- `BezierCanvas.weighted`: `new Point(P0.x*(1-t)+P1.x*t, P0.y*(1-t)+P1.y*t)`;
the `Point` constructor rounds the coordinates. -/
def weighted (P0 P1 : Point) (t : ℝ) (fresh : ℕ) : Point :=
  mkPoint fresh (P0.x * (1 - t) + P1.x * t) (P0.y * (1 - t) + P1.y * t)

/-- The raw cubic Bezier value at `t` (the arithmetic of
`BezierUtils.cubicBezierInterpolate` and of the inlined basis in
`BezierUtils.getLength`, before any `Point` construction). -/
def rawBezier (P0 P1 P2 P3 : Point) (t : ℝ) : ℝ × ℝ :=
  (P0.x * (1 - t) ^ 3 + 3 * P1.x * t * (1 - t) ^ 2 + 3 * P2.x * t ^ 2 * (1 - t) + P3.x * t ^ 3,
   P0.y * (1 - t) ^ 3 + 3 * P1.y * t * (1 - t) ^ 2 + 3 * P2.y * t ^ 2 * (1 - t) + P3.y * t ^ 3)

/-- `BezierUtils.cubicBezierInterpolate`: returns `new Point(x, y)`, so the
sample is rounded to integer coordinates by the `Point` constructor.  The
created point's id is irrelevant to every caller (only coordinates are
read), so it is fixed to `0`. -/
def cubicBezierInterpolate (t : ℝ) (P0 P1 P2 P3 : Point) : Point :=
  mkPoint 0 (rawBezier P0 P1 P2 P3 t).1 (rawBezier P0 P1 P2 P3 t).2

/-- The state of one `BezierUtils` instance: the four control points and the
precision `len` (constructor default 200).  The declared field `length` of
the source class is never assigned anywhere (it stays `undefined`) and is
therefore omitted. -/
structure BezierUtils where
  a : Point
  b : Point
  c : Point
  d : Point
  len : ℕ

/-- `BezierUtils.interpolate`: `cubicBezierInterpolate(t, a, b, c, d)`. -/
def BezierUtils.interpolate (bz : BezierUtils) (t : ℝ) : Point :=
  cubicBezierInterpolate t bz.a bz.b bz.c bz.d

/-- The `i`-th constructor sample `this.interpolate(i / len)` (a rounded
`Point`, see `cubicBezierInterpolate`). -/
def BezierUtils.sample (bz : BezierUtils) (i : ℕ) : Point :=
  bz.interpolate ((i : ℝ) / bz.len)

/-- The cumulative arc-length table `this.arcLengths` built by the
`BezierUtils` constructor: `arcLengths[0] = 0` and
`arcLengths[i] = arcLengths[i-1] + sqrt(dx*dx + dy*dy)` where `dx`,`dy` are
the coordinate differences of consecutive samples.  Modelled as a total
function on `ℕ`; the source array has entries `0..len` and only those are
ever read. -/
def BezierUtils.arcLengths (bz : BezierUtils) : ℕ → ℝ
  | 0 => 0
  | i + 1 =>
      bz.arcLengths i +
        Real.sqrt (((bz.sample i).x - (bz.sample (i + 1)).x) ^ 2 +
          ((bz.sample i).y - (bz.sample (i + 1)).y) ^ 2)

/-- The `while (low < high)` binary-search loop of `BezierUtils.map`,
carrying the mutable variables `low`, `high` and `index` (the value returned
is the final value of `index`; `(((high - low) / 2) | 0)` is natural
division by 2). -/
def searchLoop (T : ℕ → ℝ) (target : ℝ) (low high index : ℕ) : ℕ :=
  if _h : low < high then
    if T (low + (high - low) / 2) < target then
      searchLoop T target (low + (high - low) / 2 + 1) high (low + (high - low) / 2)
    else
      searchLoop T target low (low + (high - low) / 2) (low + (high - low) / 2)
  else index
termination_by high - low
decreasing_by
  · omega
  · omega

/-- `BezierUtils.map(u)`: the arc-length reparameterization.  After the
binary search the source does `index--` when `arcLengths[index] >
targetLength`; that decrement is natural subtraction here (the source could
produce `-1` only for a negative target, and no caller passes `u < 0`). -/
def BezierUtils.map (bz : BezierUtils) (u : ℝ) : ℝ :=
  let T := bz.arcLengths
  let target := u * T bz.len
  let i0 := searchLoop T target 0 bz.len 0
  let i1 := if T i0 > target then i0 - 1 else i0
  let lengthBefore := T i1
  if lengthBefore = target then (i1 : ℝ) / bz.len
  else ((i1 : ℝ) + (target - lengthBefore) / (T (i1 + 1) - lengthBefore)) / bz.len

/-- `BezierUtils.mx(u)`: `interpolate(map(u)).x`. -/
def BezierUtils.mx (bz : BezierUtils) (u : ℝ) : ℝ :=
  (bz.interpolate (bz.map u)).x

/-- `BezierUtils.my(u)`: `interpolate(map(u)).y`. -/
def BezierUtils.my (bz : BezierUtils) (u : ℝ) : ℝ :=
  (bz.interpolate (bz.map u)).y

/-- `BezierUtils.getLength()`: the coarse polyline estimator.  It evaluates
the raw cubic (no rounding) at `t = i / 100` for `i = 0 .. 99` and sums the
99 consecutive distances (the loop accumulates only for `i > 0`, and never
reaches `t = 1`). -/
def BezierUtils.getLength (bz : BezierUtils) : ℝ :=
  ∑ i ∈ Finset.range 99,
    Real.sqrt
      (((rawBezier bz.a bz.b bz.c bz.d ((i + 1 : ℕ) / 100)).1 -
          (rawBezier bz.a bz.b bz.c bz.d ((i : ℕ) / 100)).1) ^ 2 +
        ((rawBezier bz.a bz.b bz.c bz.d ((i + 1 : ℕ) / 100)).2 -
          (rawBezier bz.a bz.b bz.c bz.d ((i : ℕ) / 100)).2) ^ 2)

/-- `ConstructionPoint` from `src/ConstructionPoint.ts`: a `Point` (the
inherited fields are `pt`) owning `_handler1`, `_handler2` and the
`fromCasteljau` flag.  `handler1` is modelled as always present: every
engine path assigns it immediately after constructing the knot, and all
readers dereference it unconditionally. -/
structure ConstructionPoint where
  pt : Point
  h1 : Point
  h2 : Option Point
  fromCasteljau : Bool

/-- The `handler1` setter: stores the point and sets its `parent`
back-reference to the owning knot. -/
def setHandler1 (cp : ConstructionPoint) (p : Point) : ConstructionPoint :=
  { cp with h1 := { p with parent := some cp.pt.id } }

/-- The `handler2` setter with a non-null argument. -/
def setHandler2 (cp : ConstructionPoint) (p : Point) : ConstructionPoint :=
  { cp with h2 := some { p with parent := some cp.pt.id } }

/-- The `handler2` setter with `null`. -/
def clearHandler2 (cp : ConstructionPoint) : ConstructionPoint :=
  { cp with h2 := none }

/-- One step of `resetActivePoint`: clears the `active` flag of a knot and
of its handles. -/
def resetActive (cp : ConstructionPoint) : ConstructionPoint :=
  { cp with
      pt := { cp.pt with active := false }
      h1 := { cp.h1 with active := false }
      h2 := cp.h2.map fun h => { h with active := false } }

/-- One record of the export/import schema
`{x, y, hp1: {x, y}, hp2?: {x, y}}`. -/
structure PointRec where
  x : ℝ
  y : ℝ
  hp1 : ℝ × ℝ
  hp2 : Option (ℝ × ℝ)

/-- `BezierCanvas.getPoints()`: exports each knot as
`{x, y, hp1, hp2?}` with `hp2` present iff `handler2` is non-null. -/
def getPoints (pts : List ConstructionPoint) : List PointRec :=
  pts.map fun cp =>
    ⟨cp.pt.x, cp.pt.y, (cp.h1.x, cp.h1.y), cp.h2.map fun h => (h.x, h.y)⟩

/-- The import loop of `BezierCanvas.setPoints`: for each record,
`new ConstructionPoint(x, y)` (rounding), `handler1 = new Point(hp1...)`
(rounding, parent set by the setter), and `handler2` likewise iff `hp2` is
present.  `c` is the value of the global `Point.count` counter. -/
def setPointsAux : List PointRec → ℕ → List ConstructionPoint
  | [], _ => []
  | r :: rs, c =>
    let knot := mkPoint c r.x r.y
    let h1 : Point := { mkPoint (c + 1) r.hp1.1 r.hp1.2 with parent := some c }
    match r.hp2 with
    | none => ⟨knot, h1, none, false⟩ :: setPointsAux rs (c + 2)
    | some q =>
        ⟨knot, h1, some { mkPoint (c + 2) q.1 q.2 with parent := some c }, false⟩ ::
          setPointsAux rs (c + 3)

/-- `BezierCanvas.setPoints(points)`: `reset()` (the spline becomes empty)
followed by the import loop, so the result is just the freshly parsed
knots. -/
def setPoints (recs : List PointRec) (fresh : ℕ) : List ConstructionPoint :=
  setPointsAux recs fresh

/-- `BezierCanvas.findClosestConstructionPoint(x, y)`: builds
`position = new Point(x, y)` (rounded) and runs `forEach` over all knots;
the `return` inside the callback does not break the loop, so `foundPoint`
ends up holding the knot of the LAST iteration whose distance was below
`maxDistance`. -/
def findClosestConstructionPoint (x y maxDistance : ℝ)
    (pts : List ConstructionPoint) : Option ConstructionPoint :=
  pts.foldl
    (fun found cur =>
      if getDistance (mkPoint 0 x y) cur.pt < maxDistance then some cur else found)
    none

/-- Specification function for the hit test: the last knot of the list
whose distance to the (rounded) query point is below `maxDistance`. -/
def lastWithin (x y maxDistance : ℝ) : List ConstructionPoint → Option ConstructionPoint
  | [] => none
  | p :: rest =>
    match lastWithin x y maxDistance rest with
    | some r => some r
    | none => if getDistance (mkPoint 0 x y) p.pt < maxDistance then some p else none

/-- `BezierCanvas.knotInsertion(t, P0, P1, P2, P3)` acting on the segment
between knots `i` and `i+1` (the caller `findPointOnSpline` hands it that
segment's control points: `P1` is knot `i`'s `handler2 || handler1` and
`P2` is knot `i+1`'s `handler1`).  `weighted` rounds every De Casteljau
point; `setActivePoint(newPoint)` clears all `active` flags; `P1`/`P2` are
then mutated in place to `P4`/`P6` (coordinate copies through the raw
fields); finally the new knot is spliced in right after the first knot
whose id equals `P0.id`. -/
def knotInsertion (pts : List ConstructionPoint) (t : ℝ) (i : ℕ)
    (fresh : ℕ) : List ConstructionPoint :=
  match pts[i]?, pts[i + 1]? with
  | some K0, some K3 =>
    let P0 := K0.pt
    let P1 := K0.h2.getD K0.h1
    let P2 := K3.h1
    let P3 := K3.pt
    let P4 := weighted P0 P1 t fresh
    let P5 := weighted P1 P2 t (fresh + 1)
    let P6 := weighted P2 P3 t (fresh + 2)
    let P7 := weighted P4 P5 t (fresh + 3)
    let P8 := weighted P5 P6 t (fresh + 4)
    let P9 := weighted P7 P8 t (fresh + 5)
    let newPoint : ConstructionPoint :=
      { pt := { mkPoint (fresh + 6) P9.x P9.y with active := true }
        h1 := { P7 with parent := some (fresh + 6) }
        h2 := some { P8 with parent := some (fresh + 6) }
        fromCasteljau := true }
    let K0w :=
      let K := resetActive K0
      if K.h2.isSome then { K with h2 := K.h2.map fun h => h.setCoords P4.x P4.y }
      else { K with h1 := K.h1.setCoords P4.x P4.y }
    let K3w :=
      let K := resetActive K3
      { K with h1 := K.h1.setCoords P6.x P6.y }
    let pts2 := ((pts.map resetActive).set i K0w).set (i + 1) K3w
    match pts2.findIdx? (fun K => K.pt.id == P0.id) with
    | some j => pts2.insertIdx (j + 1) newPoint
    | none => pts2
  | _, _ => pts

/-- The index the removal `forEach` leaves in `foundIndex`: the LAST index
whose knot id matches (the callback's `return` does not break the loop). -/
def lastIdxWithId : List ConstructionPoint → ℕ → Option ℕ
  | [], _ => none
  | p :: rest, tid =>
    match (lastIdxWithId rest tid).map (· + 1) with
    | some j => some j
    | none => if p.pt.id = tid then some 0 else none

/-- The trailing re-enforcement of the handle-cardinality invariant in
`removeConstructionPoint`: in classical mode (`!naturalDrawMode`), on a
non-empty spline the first knot's `handler1` becomes a clone of its
`handler2` (if present, which is then dropped) and the last knot's
`handler2` is dropped. -/
def postRemovalFix (pts : List ConstructionPoint) (naturalDrawMode : Bool)
    (fresh : ℕ) : List ConstructionPoint :=
  if pts.length ≠ 0 ∧ naturalDrawMode = false then
    let pts1 :=
      match pts[0]? with
      | some K0 =>
        match K0.h2 with
        | some h2 =>
            pts.set 0 { K0 with h1 := { h2.clone fresh with parent := some K0.pt.id }, h2 := none }
        | none => pts
      | none => pts
    match pts1[pts1.length - 1]? with
    | some KL => pts1.set (pts1.length - 1) (clearHandler2 KL)
    | none => pts1
  else pts

/-- `BezierCanvas.removeConstructionPoint(point)` for the knot with id
`targetId`.  If the knot is `fromCasteljau` and has both neighbours, the
reverse De Casteljau fusion runs unless `k` is `NaN`; in JavaScript
`k = dist(handler2, knot) / dist(handler1, knot)` is `NaN` exactly when
both distances are `0` (a positive numerator over `0` gives `Infinity`,
which passes the `!isNaN(k)` guard), so the guard is embedded as that
condition.  For an id with no match, `foundIndex` stays `NaN` and
`splice(NaN, 1)` removes index 0.  `fresh` allocates ids for the `P`/`Q`
points and the clone in `postRemovalFix`. -/
def removeConstructionPoint (pts : List ConstructionPoint) (targetId : ℕ)
    (naturalDrawMode : Bool) (fresh : ℕ) : List ConstructionPoint :=
  match lastIdxWithId pts targetId with
  | none => postRemovalFix (pts.eraseIdx 0) naturalDrawMode (fresh + 2)
  | some j =>
    match pts[j]? with
    | none => pts
    | some N =>
      let pts2 :=
        if N.fromCasteljau = true ∧ 1 ≤ j ∧ j + 1 < pts.length then
          match pts[j - 1]?, pts[j + 1]?, N.h2 with
          | some KP, some KN, some h2 =>
            if getDistance h2 N.pt = 0 ∧ getDistance N.h1 N.pt = 0 then pts
            else
              let k := getDistance h2 N.pt / getDistance N.h1 N.pt
              let P0 := KP.pt
              let P1 := KP.h2.getD KP.h1
              let P2 := KN.h1
              let P3 := KN.pt
              let P := mkPoint fresh ((1 + k) * P1.x - k * P0.x) ((1 + k) * P1.y - k * P0.y)
              let Q := mkPoint (fresh + 1) (((1 + k) * P2.x - P3.x) / k)
                         (((1 + k) * P2.y - P3.y) / k)
              let KPw :=
                if KP.h2.isSome then { KP with h2 := KP.h2.map fun h => h.setCoords P.x P.y }
                else { KP with h1 := KP.h1.setCoords P.x P.y }
              let KNw := { KN with h1 := KN.h1.setCoords Q.x Q.y }
              (pts.set (j - 1) KPw).set (j + 1) KNw
          | _, _, _ => pts
        else pts
      postRemovalFix (pts2.eraseIdx j) naturalDrawMode (fresh + 2)

/-- The construction-point creation branch of the `mousedown` handler
(`bindCanvasMouseDownLeft`, the `!selectedPoint` case): a new terminal knot
at `position` with a collocated `handler1` (and `handler2` in natural
mode); `setActivePoint` marks the natural-mode `handler2` (classical-mode
`handler1`) active; with more than two knots the previous knot is smoothed
by deriving its other handle. -/
def appendConstructionPoint (pts : List ConstructionPoint) (pos : Point)
    (naturalDrawMode : Bool) (smoothFactor : ℝ) (fresh : ℕ) : List ConstructionPoint :=
  let knot := mkPoint fresh pos.x pos.y
  let h1 : Point := { mkPoint (fresh + 1) pos.x pos.y with parent := some fresh }
  let point : ConstructionPoint :=
    if naturalDrawMode = true then
      ⟨knot, h1,
        some { mkPoint (fresh + 2) pos.x pos.y with parent := some fresh, active := true },
        false⟩
    else
      ⟨knot, { h1 with active := true }, none, false⟩
  let pts1 := (pts.map resetActive) ++ [point]
  if 2 < pts1.length then
    match pts1[pts1.length - 2]? with
    | some D =>
      if naturalDrawMode = true then
        match D.h2 with
        | some Dh2 =>
            pts1.set (pts1.length - 2)
              { D with h1 := { mkPoint (fresh + 3)
                  (D.pt.x - smoothFactor * (Dh2.x - D.pt.x))
                  (D.pt.y - smoothFactor * (Dh2.y - D.pt.y)) with parent := some D.pt.id } }
        | none => pts1
      else
        pts1.set (pts1.length - 2)
          { D with h2 := some { mkPoint (fresh + 3)
              (D.pt.x - smoothFactor * (D.h1.x - D.pt.x))
              (D.pt.y - smoothFactor * (D.h1.y - D.pt.y)) with parent := some D.pt.id } }
    | none => pts1
  else pts1

/-- Which point the `mousemove` handler is dragging
(`this.currentMovingPoint` resolved against the knot list: the knot itself,
its `handler1` or its `handler2`). -/
inductive DragTarget where
  | knot (i : ℕ)
  | handler1 (i : ℕ)
  | handler2 (i : ℕ)

/-- The mutation performed by one `mousemove` event
(`bindCanvasMouseDownMove`) once the throttle has passed and a moving point
is active; `pos` is `getPosition(e)` (a rounded `Point`).  Dragging a knot
translates it and its handles rigidly by the captured deltas.  Dragging a
handle with `constraintTangents` applies the tangent constraint to the
opposite handle: in the pencil phase (`naturalDrawMode` and the mouse not
yet released since the knot was created) the opposite handle is the
reflection of `pos` through the knot; otherwise it is scaled by
`1 / ratio` with `ratio = dist(pos, knot) / dist(opposite, knot)` and the
JavaScript guard `ratio !== 0` aborts the whole move exactly when
`dist(pos, knot) = 0` while the opposite distance is non-zero.  The
division corners are mapped as follows.  With `dist(opposite, knot) = 0`
and `dist(pos, knot) ≠ 0` the JavaScript ratio is `Infinity`, the guard
passes, and `1/Infinity = 0` is written — which coincides with this
embedding's total division (`1 / (d1 / 0) = 1 / 0 = 0`), so that case
stays in the generic branch.  With BOTH distances zero the JavaScript
ratio is `0/0 = NaN`, which also passes `ratio !== 0`, and
`knot + (1/NaN) * 0 = NaN` is written into the opposite handle: the
resulting state holds a non-real coordinate and is modeled as `none`.
All coordinate writes here go through the raw `x`/`y` fields: nothing is
rounded. -/
def mouseMove (pts : List ConstructionPoint) (target : DragTarget) (pos : Point)
    (naturalDrawMode released constraintTangents : Bool) :
    Option (List ConstructionPoint) :=
  match target with
  | .knot i =>
    match pts[i]? with
    | none => some pts
    | some K =>
      let delta1X := K.pt.x - K.h1.x
      let delta1Y := K.pt.y - K.h1.y
      let K1 := { K with pt := K.pt.setCoords pos.x pos.y }
      let K2 := { K1 with h1 := K1.h1.setCoords (pos.x - delta1X) (pos.y - delta1Y) }
      let K3 :=
        match K.h2 with
        | some h2 =>
            { K2 with h2 := some (h2.setCoords (pos.x - (K.pt.x - h2.x)) (pos.y - (K.pt.y - h2.y))) }
        | none => K2
      some (pts.set i K3)
  | .handler1 i =>
    match pts[i]? with
    | none => some pts
    | some K =>
      match K.h2 with
      | some h2 =>
        if constraintTangents = true then
          let d1 := getDistance pos K.pt
          let d2 := getDistance h2 K.pt
          if naturalDrawMode = true ∧ released = false then
            some (pts.set i { K with
              h1 := K.h1.setCoords pos.x pos.y
              h2 := some (h2.setCoords (K.pt.x - (pos.x - K.pt.x)) (K.pt.y - (pos.y - K.pt.y))) })
          else if d1 = 0 ∧ d2 ≠ 0 then some pts
          else if d1 = 0 ∧ d2 = 0 then none
          else
            let ratio := d1 / d2
            some (pts.set i { K with
              h1 := K.h1.setCoords pos.x pos.y
              h2 := some (h2.setCoords (K.pt.x + 1 / ratio * (K.pt.x - pos.x))
                (K.pt.y + 1 / ratio * (K.pt.y - pos.y))) })
        else some (pts.set i { K with h1 := K.h1.setCoords pos.x pos.y })
      | none => some (pts.set i { K with h1 := K.h1.setCoords pos.x pos.y })
  | .handler2 i =>
    match pts[i]? with
    | none => some pts
    | some K =>
      match K.h2 with
      | none => some pts
      | some h2 =>
        if constraintTangents = true then
          let d1 := getDistance pos K.pt
          let d2 := getDistance K.h1 K.pt
          if naturalDrawMode = true ∧ released = false then
            some (pts.set i { K with
              h1 := K.h1.setCoords (K.pt.x - (pos.x - K.pt.x)) (K.pt.y - (pos.y - K.pt.y))
              h2 := some (h2.setCoords pos.x pos.y) })
          else if d1 = 0 ∧ d2 ≠ 0 then some pts
          else if d1 = 0 ∧ d2 = 0 then none
          else
            let ratio := d1 / d2
            some (pts.set i { K with
              h1 := K.h1.setCoords (K.pt.x + 1 / ratio * (K.pt.x - pos.x))
                (K.pt.y + 1 / ratio * (K.pt.y - pos.y))
              h2 := some (h2.setCoords pos.x pos.y) })
        else some (pts.set i { K with h2 := some (h2.setCoords pos.x pos.y) })

/-- The per-segment `BezierUtils` instances built by
`getRegularlyPlacedPoints` (and `findPointOnSpline`): for consecutive knots
`p`, `q` the segment is `(p, p.handler2 || p.handler1, q.handler1, q)` with
the default precision `len = 200`. -/
def beziers (pts : List ConstructionPoint) : List BezierUtils :=
  (pts.zip pts.tail).map fun pq => ⟨pq.1.pt, pq.1.h2.getD pq.1.h1, pq.2.h1, pq.2.pt, 200⟩

/-- The total length accumulated by `getRegularlyPlacedPoints` before the
allocation walk: the sum of `getLength()` over all segments. -/
def totalLength (pts : List ConstructionPoint) : ℝ :=
  ((beziers pts).map BezierUtils.getLength).sum

/-- The allocation walk of `getRegularlyPlacedPoints`: per segment,
`shapesToStick = floor(currentDistance / length * shapesCount) - drawnNumber`.
The source then has `if (index === bz.length - 1) shapesToStick = shapesCount
- drawnNumber`, but the field `BezierUtils.length` is declared and never
assigned, so the comparison is with `undefined - 1 = NaN` and never holds:
that branch is dead code and is omitted.  A positive share pushes
`shapesToStick` points sampled at `t / shapesToStick`
(`t / (shapesToStick - 1)` on the final segment). -/
def grppLoop (count : ℕ) (L : ℝ) (n : ℕ) :
    List BezierUtils → ℝ → ℤ → ℕ → List Point
  | [], _, _, _ => []
  | bz :: rest, cd, drawn, idx =>
    let cd2 := cd + bz.getLength
    let share : ℤ := ⌊cd2 / L * (count : ℝ)⌋ - drawn
    (if 0 < share then
        (List.range share.toNat).map fun t : ℕ =>
          if idx = n - 1 then
            mkPoint 0 (bz.mx ((t : ℝ) / ((share : ℝ) - 1))) (bz.my ((t : ℝ) / ((share : ℝ) - 1)))
          else
            mkPoint 0 (bz.mx ((t : ℝ) / (share : ℝ))) (bz.my ((t : ℝ) / (share : ℝ)))
      else []) ++
      grppLoop count L n rest cd2 (drawn + share) (idx + 1)

/-- The same walk, recording each segment's `shapesToStick`. -/
def grppShares (count : ℕ) (L : ℝ) : List BezierUtils → ℝ → ℤ → List ℤ
  | [], _, _ => []
  | bz :: rest, cd, drawn =>
    let cd2 := cd + bz.getLength
    let share : ℤ := ⌊cd2 / L * (count : ℝ)⌋ - drawn
    share :: grppShares count L rest cd2 (drawn + share)

/-- `BezierCanvas.getRegularlyPlacedPoints(shapesCount)`: empty for fewer
than two knots, otherwise the allocation walk over the per-segment
samplers. -/
def getRegularlyPlacedPoints (pts : List ConstructionPoint) (shapesCount : ℕ) : List Point :=
  if pts.length < 2 then []
  else grppLoop shapesCount (totalLength pts) (beziers pts).length (beziers pts) 0 0 0

/-- The shares produced by the allocation walk of
`getRegularlyPlacedPoints` (empty for fewer than two knots). -/
def allocShares (pts : List ConstructionPoint) (shapesCount : ℕ) : List ℤ :=
  if pts.length < 2 then []
  else grppShares shapesCount (totalLength pts) (beziers pts) 0 0

/-- The round-down proportional target after segment `i`:
`floor(cumulativeLength(i) / totalLength * count)`. -/
def allocFloor (pts : List ConstructionPoint) (count : ℕ) (i : ℕ) : ℤ :=
  ⌊(((beziers pts).take (i + 1)).map BezierUtils.getLength).sum / totalLength pts * (count : ℝ)⌋

/-- The state of `HistoryManagerAbstract`: the snapshot stack and cursor. -/
structure HistoryState (σ : Type) where
  statesCursor : ℕ
  statesStack : List σ

/-- `HistoryManagerAbstract.pushHistoryState(state)`: truncate the redo
branch (`slice(0, cursor + 1)`), evict the oldest snapshot when at capacity
(`shift()`), append, and move the cursor to the last entry. -/
def pushHistoryState {σ : Type} (historySize : ℕ) (hs : HistoryState σ)
    (state : σ) : HistoryState σ :=
  let st1 := hs.statesStack.take (hs.statesCursor + 1)
  let st2 := if st1.length = historySize then st1.drop 1 else st1
  let st3 := st2 ++ [state]
  ⟨st3.length - 1, st3⟩

/-- A sequence of `pushHistoryState` calls, in order. -/
def pushAll {σ : Type} (historySize : ℕ) (states : List σ)
    (hs : HistoryState σ) : HistoryState σ :=
  states.foldl (pushHistoryState historySize) hs

/-- The state after construction / `historyReset()`. -/
def initialHistory {σ : Type} : HistoryState σ := ⟨0, []⟩

/-- A real number that is an integer (the value `Math.round` produces). -/
def IsIntCoord (r : ℝ) : Prop := ∃ n : ℤ, r = n

/-- Both coordinates of a `Point` are integers. -/
def Point.Integral (p : Point) : Prop := IsIntCoord p.x ∧ IsIntCoord p.y

/-- All coordinates stored in a knot (its own and its handles) are
integers. -/
def ConstructionPoint.Integral (cp : ConstructionPoint) : Prop :=
  cp.pt.Integral ∧ cp.h1.Integral ∧ ∀ h ∈ cp.h2, h.Integral

/-- Every coordinate in the spline is an integer. -/
def IntegralSpline (pts : List ConstructionPoint) : Prop :=
  ∀ cp ∈ pts, cp.Integral

/-- Every handle owned by a knot carries that knot's id in its `parent`
back-reference (so `isHandler1()`/`isHandler2()` resolve against the right
owner). -/
def WellParented (pts : List ConstructionPoint) : Prop :=
  ∀ cp ∈ pts, cp.h1.parent = some cp.pt.id ∧ ∀ h ∈ cp.h2, h.parent = some cp.pt.id

/-- `weighted` without the `Point`-constructor rounding: the exact convex
combination used by the De Casteljau formulas. -/
def weightedRaw (P0 P1 : ℝ × ℝ) (t : ℝ) : ℝ × ℝ :=
  (P0.1 * (1 - t) + P1.1 * t, P0.2 * (1 - t) + P1.2 * t)

/-- Euclidean distance of coordinate pairs (`getDistance` on raw values). -/
def distRaw (a b : ℝ × ℝ) : ℝ :=
  Real.sqrt ((a.1 - b.1) ^ 2 + (a.2 - b.2) ^ 2)

/-- The reverse De Casteljau fusion formulas of `removeConstructionPoint`
on exact values: `P1' = (1+k)P1 - kP0` and `P2' = ((1+k)P2 - P3) / k`. -/
def fusionExact (k : ℝ) (P0 P1 P2 P3 : ℝ × ℝ) : (ℝ × ℝ) × (ℝ × ℝ) :=
  (((1 + k) * P1.1 - k * P0.1, (1 + k) * P1.2 - k * P0.2),
   (((1 + k) * P2.1 - P3.1) / k, ((1 + k) * P2.2 - P3.2) / k))

/-!  Concrete fixtures used by witnesses and counterexamples.  These are
written as plain structure literals (already-rounded integer coordinates),
standing for states built by the engine. -/

/-- A knot at (0,0) with a collocated handle (hit-test fixture). -/
def hitKnotA : ConstructionPoint :=
  ⟨⟨0, 0, 0, false, none⟩, ⟨1, 0, 0, false, some 0⟩, none, false⟩

/-- A knot at (1,0) with a collocated handle (hit-test fixture). -/
def hitKnotB : ConstructionPoint :=
  ⟨⟨2, 1, 0, false, none⟩, ⟨3, 1, 0, false, some 2⟩, none, false⟩

/-- Knot at (0,0), `handler1` (-1,0), `handler2` (1,0). -/
def segKnotA : ConstructionPoint :=
  ⟨⟨0, 0, 0, false, none⟩, ⟨1, -1, 0, false, some 0⟩, some ⟨2, 1, 0, false, some 0⟩, false⟩

/-- Knot at (10,0), `handler1` (9,0), `handler2` (11,0). -/
def segKnotB : ConstructionPoint :=
  ⟨⟨3, 10, 0, false, none⟩, ⟨4, 9, 0, false, some 3⟩, some ⟨5, 11, 0, false, some 3⟩, false⟩

/-- A two-knot spline whose single segment is ((0,0),(1,0),(9,0),(10,0)). -/
def segSpline : List ConstructionPoint := [segKnotA, segKnotB]

/-- Knot at (10,0) with `handler1` at (5,5) (removal fixture). -/
def remKnotB : ConstructionPoint :=
  ⟨⟨6, 10, 0, false, none⟩, ⟨7, 5, 5, false, some 6⟩, some ⟨8, 11, 0, false, some 6⟩, false⟩

/-- A `fromCasteljau` knot at (6,0) whose `handler2` has collapsed onto the
knot ((6,0)) while `handler1` remains at (3,0): its removal ratio `k` is
`0 / 3 = 0`. -/
def remKnotN : ConstructionPoint :=
  ⟨⟨3, 6, 0, false, none⟩, ⟨4, 3, 0, false, some 3⟩, some ⟨5, 6, 0, false, some 3⟩, true⟩

/-- Spline around `remKnotN`: previous knot `segKnotA`, next `remKnotB`. -/
def remSpline : List ConstructionPoint := [segKnotA, remKnotN, remKnotB]

/-- A `fromCasteljau` knot at (6,0) with BOTH handles collapsed onto the
knot: its removal ratio is `0 / 0` (`NaN`). -/
def guardKnotN : ConstructionPoint :=
  ⟨⟨3, 6, 0, false, none⟩, ⟨4, 6, 0, false, some 3⟩, some ⟨5, 6, 0, false, some 3⟩, true⟩

/-- Spline around `guardKnotN`. -/
def guardSpline : List ConstructionPoint := [segKnotA, guardKnotN, remKnotB]

/-- A straight uniformly-parameterized segment: control points (0,0),
(200,0), (400,0), (600,0), so the raw curve is `t ↦ (600 t, 0)` and every
constructor sample lands on an integer. -/
def lineSeg : BezierUtils :=
  ⟨⟨0, 0, 0, false, none⟩, ⟨1, 200, 0, false, none⟩,
   ⟨2, 400, 0, false, none⟩, ⟨3, 600, 0, false, none⟩, 200⟩

/-- The fully degenerate segment: all four control points at (0,0). -/
def degenSeg : BezierUtils :=
  ⟨⟨0, 0, 0, false, none⟩, ⟨1, 0, 0, false, none⟩,
   ⟨2, 0, 0, false, none⟩, ⟨3, 0, 0, false, none⟩, 200⟩

/-- First knot of the straight-line spline: at (0,0) with `handler2`
(200,0). -/
def lineKnotA : ConstructionPoint :=
  ⟨⟨0, 0, 0, false, none⟩, ⟨1, 0, 0, false, some 0⟩, some ⟨2, 200, 0, false, some 0⟩, false⟩

/-- Second knot of the straight-line spline: at (600,0) with `handler1`
(400,0). -/
def lineKnotB : ConstructionPoint :=
  ⟨⟨3, 600, 0, false, none⟩, ⟨4, 400, 0, false, some 3⟩, none, false⟩

/-- A two-knot spline whose single segment is the straight line of
`lineSeg`. -/
def lineSpline : List ConstructionPoint := [lineKnotA, lineKnotB]

/-- First knot of the zero-length spline (everything at (0,0)). -/
def degKnotA : ConstructionPoint :=
  ⟨⟨0, 0, 0, false, none⟩, ⟨1, 0, 0, false, some 0⟩, some ⟨2, 0, 0, false, some 0⟩, false⟩

/-- Second knot of the zero-length spline. -/
def degKnotB : ConstructionPoint :=
  ⟨⟨3, 0, 0, false, none⟩, ⟨4, 0, 0, false, some 3⟩, none, false⟩

/-- A two-knot spline of total length zero: both knots and all handles at
(0,0). -/
def degenSpline : List ConstructionPoint := [degKnotA, degKnotB]

/-- The second handle of `tangentKnot`, at (2,0): distance 2 from the
knot. -/
def tangentH2 : Point := ⟨2, 2, 0, false, some 0⟩

/-- A released knot at (0,0) with `handler1` (1,0) and `handler2` (2,0)
(tangent-constraint fixture). -/
def tangentKnot : ConstructionPoint :=
  ⟨⟨0, 0, 0, false, none⟩, ⟨1, 1, 0, false, some 0⟩, some tangentH2, false⟩

/-- One-knot spline holding `tangentKnot`. -/
def tangentSpline : List ConstructionPoint := [tangentKnot]

/-- A drag position at (3,4): distance 5 from the origin knot. -/
def dragPos : Point := ⟨99, 3, 4, false, none⟩

/-- A `handler2` collapsed onto its knot at (0,0): distance 0. -/
def collapsedH2 : Point := ⟨2, 0, 0, false, some 0⟩

/-- A released knot at (0,0) whose `handler2` sits on the knot itself. -/
def collapsedKnot : ConstructionPoint :=
  ⟨⟨0, 0, 0, false, none⟩, ⟨1, 1, 0, false, some 0⟩, some collapsedH2, false⟩

/-- One-knot spline holding `collapsedKnot`. -/
def collapsedSpline : List ConstructionPoint := [collapsedKnot]

/-- A drag position exactly on the knot at (0,0): drag distance 0. -/
def zeroDrag : Point := ⟨98, 0, 0, false, none⟩

/-- The knot produced by inserting at `t = 1/2` into `segSpline` with
`fresh = 20`: knot point (6,0) (id 26), incoming handle (3,0), outgoing
handle (8,0). -/
def insKnotN : ConstructionPoint :=
  ⟨⟨26, 6, 0, true, none⟩, ⟨23, 3, 0, false, some 26⟩, some ⟨24, 8, 0, false, some 26⟩, true⟩

/-- `segKnotB` after the insertion rewrote its incoming handle to (10,0). -/
def segKnotB2 : ConstructionPoint :=
  ⟨⟨3, 10, 0, false, none⟩, ⟨4, 10, 0, false, some 3⟩, some ⟨5, 11, 0, false, some 3⟩, false⟩

/-- The spline obtained from `segSpline` by the `t = 1/2` insertion. -/
def insSpline : List ConstructionPoint := [segKnotA, insKnotN, segKnotB2]

/-! ## General helper lemmas -/

lemma round_eval {x : ℝ} {n : ℤ} (h1 : (n : ℝ) ≤ x + 1 / 2) (h2 : x + 1 / 2 < n + 1) :
    round x = n := by
  rw [round_eq]
  exact Int.floor_eq_iff.mpr ⟨h1, h2⟩

lemma mkPoint_eval {x y : ℝ} {n m : ℤ} (id : ℕ) (hx : round x = n) (hy : round y = m) :
    mkPoint id x y = ⟨id, (n : ℝ), (m : ℝ), false, none⟩ := by
  simp [mkPoint, hx, hy]

lemma sqrt_eval {x r : ℝ} (h : 0 ≤ r) (hx : x = r ^ 2) : Real.sqrt x = r := by
  rw [hx, Real.sqrt_sq h]

/-! ## C9: history bounds -/

lemma take_cursor_self {σ : Type} (st : List σ) : st.take (st.length - 1 + 1) = st := by
  cases st with
  | nil => rfl
  | cons a l => simp

lemma pushHistoryState_step {σ : Type} (size : ℕ) (hs : HistoryState σ) (s : σ)
    (hc : hs.statesCursor = hs.statesStack.length - 1) :
    pushHistoryState size hs s =
      if hs.statesStack.length = size then
        ⟨(hs.statesStack.drop 1 ++ [s]).length - 1, hs.statesStack.drop 1 ++ [s]⟩
      else ⟨hs.statesStack.length, hs.statesStack ++ [s]⟩ := by
  unfold pushHistoryState
  rw [hc, take_cursor_self]
  by_cases h : hs.statesStack.length = size
  · simp [h]
  · simp [h]

lemma pushAll_stack {σ : Type} (size : ℕ) (hsize : 1 ≤ size) (l : List σ) :
    (pushAll size l initialHistory).statesStack = l.drop (l.length - min l.length size) ∧
    (pushAll size l initialHistory).statesCursor = min l.length size - 1 := by
  induction l using List.reverseRecOn with
  | nil => simp [pushAll, initialHistory]
  | append_singleton l s ih =>
    obtain ⟨ihs, ihc⟩ := ih
    have hlen : (pushAll size l initialHistory).statesStack.length = min l.length size := by
      rw [ihs, List.length_drop]
      omega
    have hc : (pushAll size l initialHistory).statesCursor =
        (pushAll size l initialHistory).statesStack.length - 1 := by
      rw [ihc, hlen]
    have hfold : pushAll size (l ++ [s]) initialHistory =
        pushHistoryState size (pushAll size l initialHistory) s := by
      unfold pushAll
      rw [List.foldl_append]
      rfl
    rw [hfold, pushHistoryState_step size _ s hc]
    by_cases hcap : size ≤ l.length
    · have hmin : min l.length size = size := by omega
      rw [if_pos (by rw [hlen, hmin])]
      have hstack : (pushAll size l initialHistory).statesStack.drop 1 ++ [s] =
          (l ++ [s]).drop ((l ++ [s]).length - min (l ++ [s]).length size) := by
        rw [ihs, List.drop_drop]
        have harith : (l ++ [s]).length - min (l ++ [s]).length size =
            l.length - min l.length size + 1 := by
          simp only [List.length_append, List.length_singleton]
          omega
        rw [harith, ← List.drop_append_of_le_length (by omega)]
      refine ⟨hstack, ?_⟩
      simp only [hstack, List.length_drop, List.length_append, List.length_singleton]
      omega
    · have hmin : min l.length size = l.length := by omega
      rw [if_neg (by rw [hlen]; omega)]
      have h0 : l.length - min l.length size = 0 := by omega
      have h2 : (l ++ [s]).length - min (l ++ [s]).length size = 0 := by
        simp only [List.length_append, List.length_singleton]
        omega
      have hstack : (pushAll size l initialHistory).statesStack ++ [s] =
          (l ++ [s]).drop ((l ++ [s]).length - min (l ++ [s]).length size) := by
        rw [ihs, h0, List.drop_zero, h2, List.drop_zero]
      refine ⟨hstack, ?_⟩
      simp only [hstack, List.length_drop, List.length_append, List.length_singleton]
      omega

/-- C9 (amended: the capacity must be at least 1; with `historySize = 0`
the `length === historySize` eviction check can never fire after the first
push and the stack grows without bound).  For every capacity
`historySize ≥ 1`, pushing `historySize + k` states from the initial
history leaves exactly the last `historySize` of them, oldest evicted
first, with the cursor at the last entry. -/
theorem C9_history_bounds {σ : Type} (size k : ℕ) (states : List σ)
    (hsize : 1 ≤ size) (hk : 1 ≤ k) (hlen : states.length = size + k) :
    (pushAll size states initialHistory).statesStack = states.drop k ∧
    (pushAll size states initialHistory).statesStack.length = size ∧
    (pushAll size states initialHistory).statesCursor = size - 1 := by
  obtain ⟨hs, hc⟩ := pushAll_stack size hsize states
  have hmin : min states.length size = size := by omega
  have hdrop : states.length - min states.length size = k := by omega
  refine ⟨by rw [hs, hdrop], ?_, by rw [hc, hmin]⟩
  rw [hs, hdrop, List.length_drop]
  omega

/-- Witness for C9: capacity 2, three pushes keep the last two states. -/
theorem C9_history_bounds_witness :
    (pushAll 2 [10, 20, 30] (initialHistory : HistoryState ℕ)).statesStack =
        ([10, 20, 30] : List ℕ).drop 1 ∧
    (pushAll 2 [10, 20, 30] (initialHistory : HistoryState ℕ)).statesStack.length = 2 ∧
    (pushAll 2 [10, 20, 30] (initialHistory : HistoryState ℕ)).statesCursor = 2 - 1 :=
  C9_history_bounds 2 1 [10, 20, 30] (by decide) (by decide) (by decide)

/-- C9 counterexample: with `historySize = 0` (a configurable capacity),
pushing `0 + 2` distinct states leaves 2 stored snapshots, not 0: the
claim's bound fails for that capacity. -/
theorem C9_counterexample :
    (pushAll 0 [10, 20] (initialHistory : HistoryState ℕ)).statesStack.length = 2 ∧
    (2 : ℕ) ≠ 0 := by
  constructor
  · rfl
  · decide

/-! ## C4: nearest-knot hit test -/

lemma findClosest_foldl (x y m : ℝ) (l : List ConstructionPoint) :
    ∀ acc, l.foldl
        (fun found cur =>
          if getDistance (mkPoint 0 x y) cur.pt < m then some cur else found) acc =
      match lastWithin x y m l with
      | some r => some r
      | none => acc := by
  induction l with
  | nil => intro acc; rfl
  | cons p rest ih =>
    intro acc
    rw [List.foldl_cons, ih]
    show (match lastWithin x y m rest with
          | some r => some r
          | none => if getDistance (mkPoint 0 x y) p.pt < m then some p else acc) =
        _
    rw [lastWithin]
    by_cases h : getDistance (mkPoint 0 x y) p.pt < m
    · cases lastWithin x y m rest <;> simp [h]
    · cases lastWithin x y m rest <;> simp [h]

/-- C4 (amended: the `forEach` callback's `return` does not break the scan,
so later matches overwrite earlier ones): the hit test returns the LAST
knot in insertion order whose Euclidean distance to the (rounded) query is
below the threshold, or no match if none is within it. -/
theorem C4_hit_test_returns_last (x y m : ℝ) (pts : List ConstructionPoint) :
    findClosestConstructionPoint x y m pts = lastWithin x y m pts := by
  unfold findClosestConstructionPoint
  rw [findClosest_foldl]
  cases lastWithin x y m pts <;> rfl

/-- C4 counterexample: for the query (0,0) with threshold 10 against knots
at (0,0) and (1,0) (both within the threshold, in that insertion order),
the hit test returns the second knot, not the first: encounter order does
NOT win, the last match does. -/
theorem C4_counterexample :
    findClosestConstructionPoint 0 0 10 [hitKnotA, hitKnotB] = some hitKnotB ∧
    getDistance (mkPoint 0 0 0) hitKnotA.pt < 10 ∧
    hitKnotA.pt.id ≠ hitKnotB.pt.id := by
  have h0 : getDistance (mkPoint 0 0 0) hitKnotA.pt = 0 := by
    have : round (0 : ℝ) = 0 := by simp
    rw [mkPoint_eval 0 this this]
    unfold getDistance hitKnotA
    exact sqrt_eval le_rfl (by norm_num)
  have h1 : getDistance (mkPoint 0 0 0) hitKnotB.pt = 1 := by
    have : round (0 : ℝ) = 0 := by simp
    rw [mkPoint_eval 0 this this]
    unfold getDistance hitKnotB
    exact sqrt_eval (by norm_num) (by norm_num)
  refine ⟨?_, by rw [h0]; norm_num, by decide⟩
  unfold findClosestConstructionPoint
  rw [List.foldl_cons, List.foldl_cons, List.foldl_nil]
  rw [if_pos (by rw [h1]; norm_num)]

/-! ## C5: arc-length sampler -/

lemma arcLengths_succ (bz : BezierUtils) (i : ℕ) :
    bz.arcLengths (i + 1) = bz.arcLengths i +
      Real.sqrt (((bz.sample i).x - (bz.sample (i + 1)).x) ^ 2 +
        ((bz.sample i).y - (bz.sample (i + 1)).y) ^ 2) := rfl

lemma arcLengths_le_succ (bz : BezierUtils) (i : ℕ) :
    bz.arcLengths i ≤ bz.arcLengths (i + 1) := by
  rw [arcLengths_succ]
  have := Real.sqrt_nonneg (((bz.sample i).x - (bz.sample (i + 1)).x) ^ 2 +
    ((bz.sample i).y - (bz.sample (i + 1)).y) ^ 2)
  linarith

lemma arcLengths_mono (bz : BezierUtils) : Monotone bz.arcLengths :=
  monotone_nat_of_le_succ (arcLengths_le_succ bz)

lemma arcLengths_nonneg (bz : BezierUtils) (i : ℕ) : 0 ≤ bz.arcLengths i := by
  have h0 : bz.arcLengths 0 = 0 := rfl
  calc (0 : ℝ) = bz.arcLengths 0 := h0.symm
  _ ≤ bz.arcLengths i := arcLengths_mono bz (Nat.zero_le i)

lemma searchLoop_ge (T : ℕ → ℝ) (target : ℝ) (hT : ∀ i, ¬ T i < target) :
    ∀ high index, searchLoop T target 0 high index = if 0 < high then 0 else index := by
  intro high
  induction high using Nat.strong_induction_on with
  | _ high ih =>
    intro index
    rw [searchLoop]
    by_cases h : 0 < high
    · rw [dif_pos h, if_neg (hT _), ih _ (by omega), if_pos h]
      by_cases h2 : 0 < 0 + (high - 0) / 2
      · rw [if_pos h2]
      · rw [if_neg h2]
        omega
    · rw [dif_neg h, if_neg h]

lemma searchLoop_lt (T : ℕ → ℝ) (target : ℝ) (len : ℕ) (hT : ∀ i < len, T i < target) :
    ∀ gas low index, len - low ≤ gas → low < len →
      searchLoop T target low len index = len - 1 := by
  intro gas
  induction gas with
  | zero =>
    intro low index hgas hlow
    omega
  | succ g ih =>
    intro low index hgas hlow
    rw [searchLoop, dif_pos hlow, if_pos (hT _ (by omega))]
    by_cases h2 : low + (len - low) / 2 + 1 < len
    · exact ih _ _ (by omega) h2
    · rw [searchLoop, dif_neg (by omega)]
      omega

lemma map_zero_eval (bz : BezierUtils) : bz.map 0 = 0 := by
  unfold BezierUtils.map
  simp only [zero_mul]
  rw [searchLoop_ge _ _ (fun i => not_lt.mpr (arcLengths_nonneg bz i)), ite_self]
  have h0 : bz.arcLengths 0 = 0 := rfl
  have hng : ¬ bz.arcLengths 0 > 0 := by
    rw [h0]
    exact lt_irrefl 0
  rw [if_neg hng, if_pos h0]
  simp

lemma map_one_eval (bz : BezierUtils) (hlen : 0 < bz.len)
    (hstrict : bz.arcLengths (bz.len - 1) < bz.arcLengths bz.len) : bz.map 1 = 1 := by
  unfold BezierUtils.map
  simp only [one_mul]
  have hT : ∀ i < bz.len, bz.arcLengths i < bz.arcLengths bz.len := by
    intro i hi
    calc bz.arcLengths i ≤ bz.arcLengths (bz.len - 1) := arcLengths_mono bz (by omega)
    _ < _ := hstrict
  rw [searchLoop_lt _ _ _ hT bz.len 0 0 (by omega) hlen]
  rw [if_neg (not_lt.mpr (le_of_lt (hT _ (by omega))))]
  rw [if_neg (ne_of_lt (hT _ (by omega)))]
  rw [Nat.sub_add_cancel hlen]
  rw [div_self (ne_of_gt (sub_pos.mpr (hT _ (by omega))))]
  have hcast : ((bz.len - 1 : ℕ) : ℝ) + 1 = (bz.len : ℝ) := by
    rw [Nat.cast_sub hlen]
    ring
  rw [hcast, div_self (Nat.cast_ne_zero.mpr (by omega))]

/-- C5 (amended: `map(1) = 1` additionally needs the last table step to be
strictly increasing; because the constructor's samples are rounded `Point`s
consecutive samples can coincide, flattening the tail of the table and
making the binary search stop early).  For every segment the cumulative
table is monotone non-decreasing and `map(0) = 0`; if moreover the final
table entry strictly exceeds the previous one, `map(1) = 1` exactly. -/
theorem C5_arc_length_sampler (bz : BezierUtils) :
    (∀ i, bz.arcLengths i ≤ bz.arcLengths (i + 1)) ∧
    bz.map 0 = 0 ∧
    (0 < bz.len → bz.arcLengths (bz.len - 1) < bz.arcLengths bz.len → bz.map 1 = 1) :=
  ⟨arcLengths_le_succ bz, map_zero_eval bz, map_one_eval bz⟩

lemma lineSeg_raw (t : ℝ) :
    rawBezier lineSeg.a lineSeg.b lineSeg.c lineSeg.d t = (600 * t, 0) := by
  simp only [rawBezier, lineSeg, Prod.mk.injEq]
  constructor <;> ring

lemma lineSeg_sample (i : ℕ) :
    lineSeg.sample i = ⟨0, ((3 * i : ℕ) : ℝ), 0, false, none⟩ := by
  unfold BezierUtils.sample BezierUtils.interpolate cubicBezierInterpolate
  rw [lineSeg_raw]
  have harg : (600 : ℝ) * ((i : ℝ) / (lineSeg.len : ℕ)) = ((3 * i : ℕ) : ℝ) := by
    show (600 : ℝ) * ((i : ℝ) / (200 : ℕ)) = ((3 * i : ℕ) : ℝ)
    push_cast
    ring
  simp only [harg, mkPoint, round_natCast, round_zero]
  norm_num

lemma lineSeg_table (i : ℕ) : lineSeg.arcLengths i = 3 * i := by
  induction i with
  | zero =>
    rw [show lineSeg.arcLengths 0 = (0 : ℝ) from rfl]
    norm_num
  | succ n ih =>
    rw [arcLengths_succ, ih, lineSeg_sample, lineSeg_sample]
    have h1 : ((((3 * n : ℕ) : ℝ)) - ((3 * (n + 1) : ℕ) : ℝ)) ^ 2 + ((0 : ℝ) - 0) ^ 2 =
        3 ^ 2 := by
      push_cast
      ring
    show (3 : ℝ) * n + Real.sqrt ((((3 * n : ℕ) : ℝ) - ((3 * (n + 1) : ℕ) : ℝ)) ^ 2 +
      ((0 : ℝ) - 0) ^ 2) = 3 * ((n + 1 : ℕ) : ℝ)
    rw [sqrt_eval (by norm_num : (0:ℝ) ≤ 3) h1]
    push_cast
    ring

/-- Witness for C5 applied to the straight segment with control points
(0,0), (200,0), (400,0), (600,0): its table is strictly increasing
(`3i`), so `map(1) = 1`. -/
theorem C5_witness : lineSeg.map 1 = 1 :=
  (C5_arc_length_sampler lineSeg).2.2 (by norm_num [lineSeg])
    (by show lineSeg.arcLengths 199 < lineSeg.arcLengths 200
        rw [lineSeg_table, lineSeg_table]
        norm_num)

lemma degenSeg_raw (t : ℝ) :
    rawBezier degenSeg.a degenSeg.b degenSeg.c degenSeg.d t = (0, 0) := by
  simp [rawBezier, degenSeg]

lemma degenSeg_sample (i : ℕ) : degenSeg.sample i = ⟨0, 0, 0, false, none⟩ := by
  unfold BezierUtils.sample BezierUtils.interpolate cubicBezierInterpolate
  rw [degenSeg_raw]
  simp [mkPoint]

lemma degenSeg_table (i : ℕ) : degenSeg.arcLengths i = 0 := by
  induction i with
  | zero => rfl
  | succ n ih =>
    rw [arcLengths_succ, ih, degenSeg_sample, degenSeg_sample]
    norm_num

/-- C5 counterexample: for the fully degenerate segment (all control points
at the origin) every table entry is 0, the binary search returns index 0,
and `map(1)` evaluates to 0, not 1 — far outside any tolerance.  The claim
`map(1) = 1` therefore fails for some cubic segments. -/
theorem C5_counterexample : degenSeg.map 1 = 0 ∧ (0 : ℝ) ≠ 1 := by
  refine ⟨?_, by norm_num⟩
  unfold BezierUtils.map
  simp only [one_mul]
  have hT : ∀ i, ¬ degenSeg.arcLengths i < degenSeg.arcLengths degenSeg.len := by
    intro i
    rw [degenSeg_table, degenSeg_table]
    norm_num
  rw [searchLoop_ge _ _ hT, ite_self]
  have hng : ¬ degenSeg.arcLengths 0 > degenSeg.arcLengths degenSeg.len := by
    rw [degenSeg_table, degenSeg_table]
    norm_num
  have heq : degenSeg.arcLengths 0 = degenSeg.arcLengths degenSeg.len := by
    rw [degenSeg_table, degenSeg_table]
  rw [if_neg hng, if_pos heq]
  simp

/-! ## C7: tangent constraint on a released knot -/

lemma getDistance_nonneg (a b : Point) : 0 ≤ getDistance a b :=
  Real.sqrt_nonneg _

lemma getDistance_eq_zero {a b : Point} (h : getDistance a b = 0) : a.x = b.x ∧ a.y = b.y := by
  unfold getDistance at h
  rw [Real.sqrt_eq_zero (by positivity)] at h
  constructor
  · have hx : (a.x - b.x) ^ 2 = 0 := by nlinarith [sq_nonneg (a.x - b.x), sq_nonneg (a.y - b.y)]
    have := (pow_eq_zero_iff two_ne_zero).mp hx
    linarith
  · have hy : (a.y - b.y) ^ 2 = 0 := by nlinarith [sq_nonneg (a.x - b.x), sq_nonneg (a.y - b.y)]
    have := (pow_eq_zero_iff two_ne_zero).mp hy
    linarith

lemma dist_setCoords_scale (h2 K pos : Point) (c : ℝ) (hc : 0 ≤ c) :
    getDistance (h2.setCoords (K.x + c * (K.x - pos.x)) (K.y + c * (K.y - pos.y))) K =
      c * getDistance pos K := by
  simp only [getDistance, Point.setCoords]
  have h : (K.x + c * (K.x - pos.x) - K.x) ^ 2 + (K.y + c * (K.y - pos.y) - K.y) ^ 2 =
      c ^ 2 * ((pos.x - K.x) ^ 2 + (pos.y - K.y) ^ 2) := by ring
  rw [h, Real.sqrt_mul (sq_nonneg c), Real.sqrt_sq hc]

lemma mouseMove_handler1_ratio (pts : List ConstructionPoint) (i : ℕ)
    (K : ConstructionPoint) (h2 : Point) (pos : Point) (nat : Bool)
    (hK : pts[i]? = some K) (hh2 : K.h2 = some h2)
    (hd1 : getDistance pos K.pt ≠ 0) :
    mouseMove pts (.handler1 i) pos nat true true =
      some (pts.set i { K with
        h1 := K.h1.setCoords pos.x pos.y
        h2 := some (h2.setCoords
          (K.pt.x + 1 / (getDistance pos K.pt / getDistance h2 K.pt) * (K.pt.x - pos.x))
          (K.pt.y + 1 / (getDistance pos K.pt / getDistance h2 K.pt) * (K.pt.y - pos.y))) }) := by
  simp only [mouseMove, hK, hh2]
  rw [if_pos trivial, if_neg (by simp), if_neg (fun hc => hd1 hc.1),
    if_neg (fun hc => hd1 hc.1)]

lemma mouseMove_handler1_skip (pts : List ConstructionPoint) (i : ℕ)
    (K : ConstructionPoint) (h2 : Point) (pos : Point) (nat : Bool)
    (hK : pts[i]? = some K) (hh2 : K.h2 = some h2)
    (hd : getDistance pos K.pt = 0 ∧ getDistance h2 K.pt ≠ 0) :
    mouseMove pts (.handler1 i) pos nat true true = some pts := by
  simp only [mouseMove, hK, hh2]
  rw [if_pos trivial, if_neg (by simp), if_pos hd]

lemma mouseMove_handler1_nan (pts : List ConstructionPoint) (i : ℕ)
    (K : ConstructionPoint) (h2 : Point) (pos : Point) (nat : Bool)
    (hK : pts[i]? = some K) (hh2 : K.h2 = some h2)
    (hd1 : getDistance pos K.pt = 0) (hd2 : getDistance h2 K.pt = 0) :
    mouseMove pts (.handler1 i) pos nat true true = none := by
  simp only [mouseMove, hK, hh2]
  rw [if_pos trivial, if_neg (by simp), if_neg (fun hc => hc.2 hd2), if_pos ⟨hd1, hd2⟩]

lemma mouseMove_handler2_ratio (pts : List ConstructionPoint) (i : ℕ)
    (K : ConstructionPoint) (h2 : Point) (pos : Point) (nat : Bool)
    (hK : pts[i]? = some K) (hh2 : K.h2 = some h2)
    (hd1 : getDistance pos K.pt ≠ 0) :
    mouseMove pts (.handler2 i) pos nat true true =
      some (pts.set i { K with
        h1 := K.h1.setCoords
          (K.pt.x + 1 / (getDistance pos K.pt / getDistance K.h1 K.pt) * (K.pt.x - pos.x))
          (K.pt.y + 1 / (getDistance pos K.pt / getDistance K.h1 K.pt) * (K.pt.y - pos.y))
        h2 := some (h2.setCoords pos.x pos.y) }) := by
  simp only [mouseMove, hK, hh2]
  rw [if_pos trivial, if_neg (by simp), if_neg (fun hc => hd1 hc.1),
    if_neg (fun hc => hd1 hc.1)]

lemma mouseMove_handler2_skip (pts : List ConstructionPoint) (i : ℕ)
    (K : ConstructionPoint) (h2 : Point) (pos : Point) (nat : Bool)
    (hK : pts[i]? = some K) (hh2 : K.h2 = some h2)
    (hd : getDistance pos K.pt = 0 ∧ getDistance K.h1 K.pt ≠ 0) :
    mouseMove pts (.handler2 i) pos nat true true = some pts := by
  simp only [mouseMove, hK, hh2]
  rw [if_pos trivial, if_neg (by simp), if_pos hd]

lemma mouseMove_handler2_nan (pts : List ConstructionPoint) (i : ℕ)
    (K : ConstructionPoint) (h2 : Point) (pos : Point) (nat : Bool)
    (hK : pts[i]? = some K) (hh2 : K.h2 = some h2)
    (hd1 : getDistance pos K.pt = 0) (hd2 : getDistance K.h1 K.pt = 0) :
    mouseMove pts (.handler2 i) pos nat true true = none := by
  simp only [mouseMove, hK, hh2]
  rw [if_pos trivial, if_neg (by simp), if_neg (fun hc => hc.2 hd2), if_pos ⟨hd1, hd2⟩]

/-- C7 (amended: the skip-and-leave-in-place guarantee holds only when the
drag distance is zero while the opposite-handle distance is not; when BOTH
are zero the JavaScript ratio is `0/0 = NaN`, the `ratio !== 0` guard
passes, and `knot + (1/NaN)*0 = NaN` is written into the opposite handle —
the move corrupts the handle instead of leaving it in place).  For a drag
of either handle of an existing released knot owning both handles, with
tangent constraint on: (i)–(ii) when the drag position is not on the knot,
the opposite handle is rewritten so that its distance from the knot is
exactly its prior magnitude and its offset is the positive multiple
`d2/d1` of `(knot - pos)` — the direction opposite the drag (this covers
the opposite handle collapsed onto the knot: `1/Infinity = 0` in
JavaScript, agreeing with the embedding's `1/(d1/0) = 0`); (iii)–(iv) when
the drag position is on the knot and the opposite handle is not, the move
is aborted; (v)–(vi) when both distances are zero the resulting state is
corrupted (`none`). -/
theorem C7_tangent_mirror (pts : List ConstructionPoint) (i : ℕ)
    (K : ConstructionPoint) (h2 : Point) (pos : Point) (nat : Bool)
    (hK : pts[i]? = some K) (hh2 : K.h2 = some h2) :
    (getDistance pos K.pt ≠ 0 →
      ∃ h2n : Point,
        mouseMove pts (.handler1 i) pos nat true true =
          some (pts.set i { K with h1 := K.h1.setCoords pos.x pos.y, h2 := some h2n }) ∧
        getDistance h2n K.pt = getDistance h2 K.pt ∧
        h2n.x - K.pt.x = getDistance h2 K.pt / getDistance pos K.pt * (K.pt.x - pos.x) ∧
        h2n.y - K.pt.y = getDistance h2 K.pt / getDistance pos K.pt * (K.pt.y - pos.y)) ∧
    (getDistance pos K.pt ≠ 0 →
      ∃ h1n : Point,
        mouseMove pts (.handler2 i) pos nat true true =
          some (pts.set i { K with h1 := h1n, h2 := some (h2.setCoords pos.x pos.y) }) ∧
        getDistance h1n K.pt = getDistance K.h1 K.pt ∧
        h1n.x - K.pt.x = getDistance K.h1 K.pt / getDistance pos K.pt * (K.pt.x - pos.x) ∧
        h1n.y - K.pt.y = getDistance K.h1 K.pt / getDistance pos K.pt * (K.pt.y - pos.y)) ∧
    (getDistance pos K.pt = 0 → getDistance h2 K.pt ≠ 0 →
      mouseMove pts (.handler1 i) pos nat true true = some pts) ∧
    (getDistance pos K.pt = 0 → getDistance K.h1 K.pt ≠ 0 →
      mouseMove pts (.handler2 i) pos nat true true = some pts) ∧
    (getDistance pos K.pt = 0 → getDistance h2 K.pt = 0 →
      mouseMove pts (.handler1 i) pos nat true true = none) ∧
    (getDistance pos K.pt = 0 → getDistance K.h1 K.pt = 0 →
      mouseMove pts (.handler2 i) pos nat true true = none) := by
  refine ⟨?_, ?_, ?_, ?_, ?_, ?_⟩
  · intro hd1
    rw [mouseMove_handler1_ratio pts i K h2 pos nat hK hh2 hd1]
    refine ⟨_, rfl, ?_, ?_, ?_⟩
    · rw [show (1 : ℝ) / (getDistance pos K.pt / getDistance h2 K.pt) =
          getDistance h2 K.pt / getDistance pos K.pt from one_div_div _ _]
      rw [dist_setCoords_scale h2 K.pt pos _
        (div_nonneg (getDistance_nonneg h2 K.pt) (getDistance_nonneg pos K.pt))]
      exact div_mul_cancel₀ _ hd1
    · simp only [Point.setCoords, one_div_div]
      ring
    · simp only [Point.setCoords, one_div_div]
      ring
  · intro hd1
    rw [mouseMove_handler2_ratio pts i K h2 pos nat hK hh2 hd1]
    refine ⟨_, rfl, ?_, ?_, ?_⟩
    · rw [show (1 : ℝ) / (getDistance pos K.pt / getDistance K.h1 K.pt) =
          getDistance K.h1 K.pt / getDistance pos K.pt from one_div_div _ _]
      rw [dist_setCoords_scale K.h1 K.pt pos _
        (div_nonneg (getDistance_nonneg K.h1 K.pt) (getDistance_nonneg pos K.pt))]
      exact div_mul_cancel₀ _ hd1
    · simp only [Point.setCoords, one_div_div]
      ring
    · simp only [Point.setCoords, one_div_div]
      ring
  · intro hd1 hd2
    exact mouseMove_handler1_skip pts i K h2 pos nat hK hh2 ⟨hd1, hd2⟩
  · intro hd1 hd2
    exact mouseMove_handler2_skip pts i K h2 pos nat hK hh2 ⟨hd1, hd2⟩
  · intro hd1 hd2
    exact mouseMove_handler1_nan pts i K h2 pos nat hK hh2 hd1 hd2
  · intro hd1 hd2
    exact mouseMove_handler2_nan pts i K h2 pos nat hK hh2 hd1 hd2

lemma dragPos_d1 : getDistance dragPos tangentKnot.pt = 5 := by
  unfold getDistance dragPos tangentKnot
  exact sqrt_eval (by norm_num) (by norm_num)

lemma dragPos_d2 : getDistance tangentH2 tangentKnot.pt = 2 := by
  unfold getDistance tangentH2 tangentKnot
  exact sqrt_eval (by norm_num) (by norm_num)

/-- Witness for C7: dragging `handler1` of the knot at the origin to (3,4)
(distance 5) keeps the opposite handle, previously at (2,0) (distance 2),
at distance 2 from the knot, on the opposite side of the drag. -/
theorem C7_witness :
    ∃ h2n : Point,
      mouseMove tangentSpline (.handler1 0) dragPos true true true =
        some (tangentSpline.set 0 { tangentKnot with
          h1 := tangentKnot.h1.setCoords dragPos.x dragPos.y, h2 := some h2n }) ∧
      getDistance h2n tangentKnot.pt = getDistance tangentH2 tangentKnot.pt ∧
      h2n.x - tangentKnot.pt.x =
        getDistance tangentH2 tangentKnot.pt / getDistance dragPos tangentKnot.pt *
          (tangentKnot.pt.x - dragPos.x) ∧
      h2n.y - tangentKnot.pt.y =
        getDistance tangentH2 tangentKnot.pt / getDistance dragPos tangentKnot.pt *
          (tangentKnot.pt.y - dragPos.y) :=
  (C7_tangent_mirror tangentSpline 0 tangentKnot tangentH2 dragPos true rfl rfl).1
    (by rw [dragPos_d1]; norm_num)

lemma zeroDrag_d1 : getDistance zeroDrag collapsedKnot.pt = 0 := by
  unfold getDistance zeroDrag collapsedKnot
  norm_num

lemma collapsed_d2 : getDistance collapsedH2 collapsedKnot.pt = 0 := by
  unfold getDistance collapsedH2 collapsedKnot
  norm_num

/-- C7 counterexample: dragging `handler1` while the mouse sits on the knot
and `handler2` is collapsed onto the knot (both distances 0): the
JavaScript ratio is `0/0 = NaN`, the `ratio !== 0` guard passes, and
`knot + (1/NaN)*0 = NaN` is written into `handler2` — the opposite handle
is corrupted (state modeled `none`), not left in place as the claim
asserts. -/
theorem C7_counterexample :
    getDistance zeroDrag collapsedKnot.pt = 0 ∧
    getDistance collapsedH2 collapsedKnot.pt = 0 ∧
    mouseMove collapsedSpline (.handler1 0) zeroDrag true true true = none :=
  ⟨zeroDrag_d1, collapsed_d2,
    mouseMove_handler1_nan collapsedSpline 0 collapsedKnot collapsedH2 zeroDrag true rfl rfl
      zeroDrag_d1 collapsed_d2⟩

/-! ## C8: coordinate integrality -/

lemma mkPoint_integral (id : ℕ) (x y : ℝ) : (mkPoint id x y).Integral :=
  ⟨⟨round x, rfl⟩, ⟨round y, rfl⟩⟩

lemma setCoords_integral {a b : ℝ} (p : Point) (ha : IsIntCoord a) (hb : IsIntCoord b) :
    Point.Integral (p.setCoords a b) := ⟨ha, hb⟩

lemma resetActive_integral {cp : ConstructionPoint} (h : cp.Integral) :
    (resetActive cp).Integral := by
  obtain ⟨hp, h1, hh2⟩ := h
  refine ⟨hp, h1, ?_⟩
  intro hh hmem
  simp only [resetActive, Option.mem_def, Option.map_eq_some'] at hmem
  obtain ⟨a, ha, rfl⟩ := hmem
  exact hh2 a ha

lemma integralSpline_set {pts : List ConstructionPoint} {i : ℕ} {K : ConstructionPoint}
    (h : IntegralSpline pts) (hK : K.Integral) : IntegralSpline (pts.set i K) := by
  intro cp hcp
  rcases List.mem_or_eq_of_mem_set hcp with hmem | rfl
  · exact h cp hmem
  · exact hK

lemma integralSpline_map_resetActive {pts : List ConstructionPoint}
    (h : IntegralSpline pts) : IntegralSpline (pts.map resetActive) := by
  intro cp hcp
  rcases List.mem_map.mp hcp with ⟨q, hq, rfl⟩
  exact resetActive_integral (h q hq)

lemma mem_insertIdx_weak {α : Type} {a b : α} {n : ℕ} {l : List α}
    (h : a ∈ l.insertIdx n b) : a = b ∨ a ∈ l := by
  by_cases hn : n ≤ l.length
  · exact (List.mem_insertIdx hn).mp h
  · rw [List.insertIdx_of_length_lt _ _ _ (by omega : l.length < n)] at h
    exact Or.inr h

lemma setPointsAux_integral : ∀ (recs : List PointRec) (c : ℕ),
    IntegralSpline (setPointsAux recs c) := by
  intro recs
  induction recs with
  | nil =>
    intro c cp hcp
    cases hcp
  | cons r rs ih =>
    intro c cp hcp
    rw [setPointsAux] at hcp
    cases hr : r.hp2 with
    | none =>
      rw [hr] at hcp
      rcases List.mem_cons.mp hcp with rfl | hmem
      · exact ⟨mkPoint_integral _ _ _, mkPoint_integral (c + 1) r.hp1.1 r.hp1.2, by
          intro hh hmem
          cases hmem⟩
      · exact ih (c + 2) cp hmem
    | some q =>
      rw [hr] at hcp
      rcases List.mem_cons.mp hcp with rfl | hmem
      · refine ⟨mkPoint_integral _ _ _, mkPoint_integral (c + 1) r.hp1.1 r.hp1.2, ?_⟩
        intro hh hmem
        rw [Option.mem_def, Option.some.injEq] at hmem
        subst hmem
        exact mkPoint_integral (c + 2) q.1 q.2
      · exact ih (c + 3) cp hmem

lemma append_integral (pts : List ConstructionPoint) (pos : Point) (nat : Bool)
    (sf : ℝ) (fresh : ℕ) (h : IntegralSpline pts) :
    IntegralSpline (appendConstructionPoint pts pos nat sf fresh) := by
  cases nat with
  | true =>
    simp only [appendConstructionPoint, if_true]
    have hbase : IntegralSpline (pts.map resetActive ++
        [(⟨mkPoint fresh pos.x pos.y,
           { mkPoint (fresh + 1) pos.x pos.y with parent := some fresh },
           some { mkPoint (fresh + 2) pos.x pos.y with parent := some fresh, active := true },
           false⟩ : ConstructionPoint)]) := by
      intro q hq
      rcases List.mem_append.mp hq with hmem | hmem
      · exact integralSpline_map_resetActive h q hmem
      · rw [List.mem_singleton] at hmem
        subst hmem
        refine ⟨⟨⟨_, rfl⟩, ⟨_, rfl⟩⟩, ⟨⟨_, rfl⟩, ⟨_, rfl⟩⟩, ?_⟩
        intro hh hmem2
        rw [Option.mem_def, Option.some.injEq] at hmem2
        subst hmem2
        exact ⟨⟨_, rfl⟩, ⟨_, rfl⟩⟩
    split
    · split
      next D hD =>
        have hDint : D.Integral := hbase D (List.getElem?_mem hD)
        split
        next Dh2 hDh2 =>
          exact integralSpline_set hbase ⟨hDint.1, ⟨⟨_, rfl⟩, ⟨_, rfl⟩⟩, hDint.2.2⟩
        next => exact hbase
      next => exact hbase
    · exact hbase
  | false =>
    simp only [appendConstructionPoint, Bool.false_eq_true, if_false]
    have hbase : IntegralSpline (pts.map resetActive ++
        [(⟨mkPoint fresh pos.x pos.y,
           { ({ mkPoint (fresh + 1) pos.x pos.y with parent := some fresh } : Point) with
               active := true }, none, false⟩ : ConstructionPoint)]) := by
      intro q hq
      rcases List.mem_append.mp hq with hmem | hmem
      · exact integralSpline_map_resetActive h q hmem
      · rw [List.mem_singleton] at hmem
        subst hmem
        refine ⟨⟨⟨_, rfl⟩, ⟨_, rfl⟩⟩, ⟨⟨_, rfl⟩, ⟨_, rfl⟩⟩, ?_⟩
        intro hh hmem2
        cases hmem2
    split
    · split
      next D hD =>
        have hDint : D.Integral := hbase D (List.getElem?_mem hD)
        refine integralSpline_set hbase ⟨hDint.1, hDint.2.1, ?_⟩
        intro hh hmem2
        rw [Option.mem_def, Option.some.injEq] at hmem2
        subst hmem2
        exact ⟨⟨_, rfl⟩, ⟨_, rfl⟩⟩
      next => exact hbase
    · exact hbase

lemma integral_match_insert {X : List ConstructionPoint} {P : ConstructionPoint}
    {f : ConstructionPoint → Bool} (hX : IntegralSpline X) (hP : P.Integral) :
    IntegralSpline (match X.findIdx? f with
                    | some j => X.insertIdx (j + 1) P
                    | none => X) := by
  split
  next j hj =>
    intro cp hcp
    rcases mem_insertIdx_weak hcp with rfl | hmem
    · exact hP
    · exact hX cp hmem
  next => exact hX

lemma knotInsertion_integral (pts : List ConstructionPoint) (t : ℝ) (i fresh : ℕ)
    (h : IntegralSpline pts) : IntegralSpline (knotInsertion pts t i fresh) := by
  unfold knotInsertion
  cases hK0 : pts[i]? with
  | none => exact h
  | some K0 =>
    cases hK3 : pts[i + 1]? with
    | none => exact h
    | some K3 =>
      have hK0r := resetActive_integral (h K0 (List.getElem?_mem hK0))
      have hK3r := resetActive_integral (h K3 (List.getElem?_mem hK3))
      refine integral_match_insert ?_ ?_
      · refine integralSpline_set (integralSpline_set (integralSpline_map_resetActive h) ?_) ?_
        · dsimp only
          split
          · refine ⟨hK0r.1, hK0r.2.1, ?_⟩
            intro hh hmem
            simp only [Option.mem_def, Option.map_eq_some'] at hmem
            obtain ⟨a, _, rfl⟩ := hmem
            exact ⟨⟨_, rfl⟩, ⟨_, rfl⟩⟩
          · exact ⟨hK0r.1, ⟨⟨_, rfl⟩, ⟨_, rfl⟩⟩, hK0r.2.2⟩
        · exact ⟨hK3r.1, ⟨⟨_, rfl⟩, ⟨_, rfl⟩⟩, hK3r.2.2⟩
      · refine ⟨⟨⟨_, rfl⟩, ⟨_, rfl⟩⟩, ⟨⟨_, rfl⟩, ⟨_, rfl⟩⟩, ?_⟩
        intro hh hmem
        rw [Option.mem_def, Option.some.injEq] at hmem
        subst hmem
        exact ⟨⟨_, rfl⟩, ⟨_, rfl⟩⟩

lemma postRemovalFix_integral (pts : List ConstructionPoint) (nat : Bool) (fresh : ℕ)
    (h : IntegralSpline pts) : IntegralSpline (postRemovalFix pts nat fresh) := by
  unfold postRemovalFix
  split
  · split
    next K0 hK0 =>
      split
      next h2v hh2 =>
        have hK0int := h K0 (List.getElem?_mem hK0)
        have hfix1 : IntegralSpline (pts.set 0
            { K0 with h1 := { h2v.clone fresh with parent := some K0.pt.id }, h2 := none }) := by
          refine integralSpline_set h ⟨hK0int.1, ⟨⟨_, rfl⟩, ⟨_, rfl⟩⟩, ?_⟩
          intro hh hmem
          cases hmem
        dsimp only
        split
        next KL hKL =>
          have hKLint := hfix1 KL (List.getElem?_mem hKL)
          exact integralSpline_set hfix1 ⟨hKLint.1, hKLint.2.1, by intro hh hmem; cases hmem⟩
        next => exact hfix1
      next =>
        dsimp only
        split
        next KL hKL =>
          have hKLint := h KL (List.getElem?_mem hKL)
          exact integralSpline_set h ⟨hKLint.1, hKLint.2.1, by intro hh hmem; cases hmem⟩
        next => exact h
    next =>
      dsimp only
      split
      next KL hKL =>
        have hKLint := h KL (List.getElem?_mem hKL)
        exact integralSpline_set h ⟨hKLint.1, hKLint.2.1, by intro hh hmem; cases hmem⟩
      next => exact h
  · exact h

/-- Integrality of removal, under the non-degeneracy proviso that the
removed knot's two handle distances are both zero (the `!isNaN` guard then
skips the fusion) or both non-zero (the ratio `k` is then finite and
non-zero and both fusion divisions are ordinary).  With exactly one
distance zero the JavaScript fusion divides by zero and writes
`±Infinity`/`NaN` — non-integers — into an adjacent handle; the
embedding's total division (`x/0 = 0`) would make the conclusion hold even
there, but that sanitized case is deliberately excluded by the
hypothesis. -/
lemma remove_integral (pts : List ConstructionPoint) (tid : ℕ) (nat : Bool) (fresh : ℕ)
    (_hnd : ∀ j N hh2, lastIdxWithId pts tid = some j → pts[j]? = some N →
      N.h2 = some hh2 → (getDistance hh2 N.pt = 0 ↔ getDistance N.h1 N.pt = 0))
    (h : IntegralSpline pts) : IntegralSpline (removeConstructionPoint pts tid nat fresh) := by
  unfold removeConstructionPoint
  split
  next =>
    exact postRemovalFix_integral _ _ _ fun cp hcp => h cp (List.mem_of_mem_eraseIdx hcp)
  next j hj =>
    split
    next => exact h
    next N hN =>
      refine postRemovalFix_integral _ _ _ ?_
      intro cp hcp
      have hcp2 := List.mem_of_mem_eraseIdx hcp
      clear hcp
      split at hcp2
      · split at hcp2
        next KP KN h2v hKP hKN hh2 =>
          have hKPint := h KP (List.getElem?_mem hKP)
          have hKNint := h KN (List.getElem?_mem hKN)
          split at hcp2
          · exact h cp hcp2
          · rcases List.mem_or_eq_of_mem_set hcp2 with hmem2 | rfl
            · rcases List.mem_or_eq_of_mem_set hmem2 with hmem3 | rfl
              · exact h cp hmem3
              · split
                · refine ⟨hKPint.1, hKPint.2.1, ?_⟩
                  intro hh hmem
                  simp only [Option.mem_def, Option.map_eq_some'] at hmem
                  obtain ⟨a, _, rfl⟩ := hmem
                  exact ⟨⟨_, rfl⟩, ⟨_, rfl⟩⟩
                · exact ⟨hKPint.1, ⟨⟨_, rfl⟩, ⟨_, rfl⟩⟩, hKPint.2.2⟩
            · exact ⟨hKNint.1, ⟨⟨_, rfl⟩, ⟨_, rfl⟩⟩, hKNint.2.2⟩
        next => exact h cp hcp2
      · exact h cp hcp2

lemma tangentSpline_integral : IntegralSpline tangentSpline := by
  intro cp hcp
  rw [tangentSpline, List.mem_singleton] at hcp
  subst hcp
  refine ⟨⟨⟨0, by norm_num [tangentKnot]⟩, ⟨0, by norm_num [tangentKnot]⟩⟩,
          ⟨⟨1, by norm_num [tangentKnot]⟩, ⟨0, by norm_num [tangentKnot]⟩⟩, ?_⟩
  intro hh hmem
  rw [show tangentKnot.h2 = some tangentH2 from rfl, Option.mem_def, Option.some.injEq] at hmem
  subst hmem
  exact ⟨⟨2, by norm_num [tangentH2]⟩, ⟨0, by norm_num [tangentH2]⟩⟩

lemma segSpline_integral : IntegralSpline segSpline := by
  intro cp hcp
  rw [segSpline, List.mem_cons, List.mem_singleton] at hcp
  rcases hcp with rfl | rfl
  · refine ⟨⟨⟨0, by norm_num [segKnotA]⟩, ⟨0, by norm_num [segKnotA]⟩⟩,
            ⟨⟨-1, by norm_num [segKnotA]⟩, ⟨0, by norm_num [segKnotA]⟩⟩, ?_⟩
    intro hh hmem
    rw [show segKnotA.h2 = some ⟨2, 1, 0, false, some 0⟩ from rfl, Option.mem_def,
      Option.some.injEq] at hmem
    subst hmem
    exact ⟨⟨1, by norm_num⟩, ⟨0, by norm_num⟩⟩
  · refine ⟨⟨⟨10, by norm_num [segKnotB]⟩, ⟨0, by norm_num [segKnotB]⟩⟩,
            ⟨⟨9, by norm_num [segKnotB]⟩, ⟨0, by norm_num [segKnotB]⟩⟩, ?_⟩
    intro hh hmem
    rw [show segKnotB.h2 = some ⟨5, 11, 0, false, some 3⟩ from rfl, Option.mem_def,
      Option.some.injEq] at hmem
    subst hmem
    exact ⟨⟨11, by norm_num⟩, ⟨0, by norm_num⟩⟩

lemma insSpline_integral : IntegralSpline insSpline := by
  intro cp hcp
  rw [insSpline, List.mem_cons, List.mem_cons, List.mem_singleton] at hcp
  rcases hcp with rfl | rfl | rfl
  · refine ⟨⟨⟨0, by norm_num [segKnotA]⟩, ⟨0, by norm_num [segKnotA]⟩⟩,
            ⟨⟨-1, by norm_num [segKnotA]⟩, ⟨0, by norm_num [segKnotA]⟩⟩, ?_⟩
    intro hh hmem
    rw [show segKnotA.h2 = some ⟨2, 1, 0, false, some 0⟩ from rfl, Option.mem_def,
      Option.some.injEq] at hmem
    subst hmem
    exact ⟨⟨1, by norm_num⟩, ⟨0, by norm_num⟩⟩
  · refine ⟨⟨⟨6, by norm_num [insKnotN]⟩, ⟨0, by norm_num [insKnotN]⟩⟩,
            ⟨⟨3, by norm_num [insKnotN]⟩, ⟨0, by norm_num [insKnotN]⟩⟩, ?_⟩
    intro hh hmem
    rw [show insKnotN.h2 = some ⟨24, 8, 0, false, some 26⟩ from rfl, Option.mem_def,
      Option.some.injEq] at hmem
    subst hmem
    exact ⟨⟨8, by norm_num⟩, ⟨0, by norm_num⟩⟩
  · refine ⟨⟨⟨10, by norm_num [segKnotB2]⟩, ⟨0, by norm_num [segKnotB2]⟩⟩,
            ⟨⟨10, by norm_num [segKnotB2]⟩, ⟨0, by norm_num [segKnotB2]⟩⟩, ?_⟩
    intro hh hmem
    rw [show segKnotB2.h2 = some ⟨5, 11, 0, false, some 3⟩ from rfl, Option.mem_def,
      Option.some.injEq] at hmem
    subst hmem
    exact ⟨⟨11, by norm_num⟩, ⟨0, by norm_num⟩⟩

lemma rem2_d2 : getDistance ⟨24, 8, 0, false, some 26⟩ insKnotN.pt = 2 := by
  unfold getDistance
  exact sqrt_eval (by norm_num) (by norm_num [insKnotN])

lemma rem2_d1 : getDistance insKnotN.h1 insKnotN.pt = 3 := by
  unfold getDistance
  exact sqrt_eval (by norm_num) (by norm_num [insKnotN])

/-- C8 (amended: the invariant holds for the structural operations — import,
append, subdivision insertion, and removal-fusion, the last provided the
removed knot's handle distances are both zero or both non-zero — whose
every coordinate write then goes through the rounding `Point` constructor
or copies an existing coordinate; with exactly one handle distance zero the
removal-fusion's JavaScript division by zero writes `±Infinity`/`NaN` into
an adjacent handle, and the invariant does NOT hold at all for the
tangent-mirroring ratio update of the `mousemove` handler, which writes the
raw quotient `1/ratio * (knot - pos)` directly into the handle's
coordinate fields). -/
theorem C8_integral_coordinates :
    (∀ (recs : List PointRec) (fresh : ℕ), IntegralSpline (setPoints recs fresh)) ∧
    (∀ (pts : List ConstructionPoint) (pos : Point) (nat : Bool) (sf : ℝ) (fresh : ℕ),
      IntegralSpline pts → IntegralSpline (appendConstructionPoint pts pos nat sf fresh)) ∧
    (∀ (pts : List ConstructionPoint) (t : ℝ) (i fresh : ℕ),
      IntegralSpline pts → IntegralSpline (knotInsertion pts t i fresh)) ∧
    (∀ (pts : List ConstructionPoint) (tid : ℕ) (nat : Bool) (fresh : ℕ),
      (∀ j N hh2, lastIdxWithId pts tid = some j → pts[j]? = some N →
        N.h2 = some hh2 → (getDistance hh2 N.pt = 0 ↔ getDistance N.h1 N.pt = 0)) →
      IntegralSpline pts → IntegralSpline (removeConstructionPoint pts tid nat fresh)) :=
  ⟨fun recs fresh => setPointsAux_integral recs fresh,
   fun pts pos nat sf fresh h => append_integral pts pos nat sf fresh h,
   fun pts t i fresh h => knotInsertion_integral pts t i fresh h,
   fun pts tid nat fresh hnd h => remove_integral pts tid nat fresh hnd h⟩

/-- Witness for C8: a subdivision insertion into the concrete integer
spline keeps every coordinate an integer, and so does removing the
inserted knot (its handle distances are 2 and 3 — both non-zero — so the
fusion divisions are non-degenerate). -/
theorem C8_witness :
    IntegralSpline (knotInsertion segSpline (1 / 2) 0 20) ∧
    IntegralSpline (removeConstructionPoint insSpline 26 true 40) := by
  refine ⟨C8_integral_coordinates.2.2.1 segSpline (1 / 2) 0 20 segSpline_integral, ?_⟩
  refine C8_integral_coordinates.2.2.2 insSpline 26 true 40 ?_ insSpline_integral
  intro j N hh2 hj hN hh
  rw [show lastIdxWithId insSpline 26 = some 1 from rfl, Option.some.injEq] at hj
  subst hj
  rw [show insSpline[1]? = some insKnotN from rfl, Option.some.injEq] at hN
  subst hN
  rw [show insKnotN.h2 = some ⟨24, 8, 0, false, some 26⟩ from rfl, Option.some.injEq] at hh
  subst hh
  rw [rem2_d2, rem2_d1]
  norm_num

/-- C8 counterexample: dragging `handler1` of the integer spline
`tangentSpline` to (3,4) makes the tangent-mirroring update write
`0 + (2/5)·(0-3) = -6/5` into `handler2.x` — a non-integer coordinate.
The claim that every operation leaves all coordinates integral is false. -/
theorem C8_counterexample :
    IntegralSpline tangentSpline ∧
    ¬ IntegralSpline ((mouseMove tangentSpline (.handler1 0) dragPos true true true).getD []) := by
  refine ⟨tangentSpline_integral, ?_⟩
  intro hint
  have hd1ne : getDistance dragPos tangentKnot.pt ≠ 0 := by
    rw [dragPos_d1]
    norm_num
  rw [mouseMove_handler1_ratio tangentSpline 0 tangentKnot tangentH2 dragPos true rfl rfl
    hd1ne, Option.getD_some] at hint
  have h01 : (0 : ℕ) < tangentSpline.length := by
    rw [tangentSpline]
    norm_num
  have hKn := hint _ (List.getElem?_mem (List.getElem?_set_self h01))
  obtain ⟨n, hn⟩ := (hKn.2.2 _ (Option.mem_def.mpr rfl)).1
  simp only [Point.setCoords] at hn
  rw [dragPos_d1, dragPos_d2] at hn
  norm_num [tangentKnot, dragPos] at hn
  have h5 : (5 : ℝ) * n = -6 := by
    rw [← hn]
    norm_num
  have h5z : (5 * n : ℤ) = -6 := by
    exact_mod_cast h5
  omega

/-! ## C6: export/import round trip -/

lemma IsIntCoord.round_cast {r : ℝ} (h : IsIntCoord r) : ((round r : ℤ) : ℝ) = r := by
  obtain ⟨n, rfl⟩ := h
  rw [round_intCast]

lemma roundtrip_aux : ∀ (pts : List ConstructionPoint) (c : ℕ), IntegralSpline pts →
    getPoints (setPointsAux (getPoints pts) c) = getPoints pts := by
  intro pts
  induction pts with
  | nil => intro c _; rfl
  | cons cp rest ih =>
    intro c h
    have hcp : cp.Integral := h cp (List.mem_cons_self _ _)
    have hrest : IntegralSpline rest := fun q hq => h q (List.mem_cons_of_mem _ hq)
    show getPoints (setPointsAux
      (⟨cp.pt.x, cp.pt.y, (cp.h1.x, cp.h1.y), cp.h2.map fun hh => (hh.x, hh.y)⟩ ::
        getPoints rest) c) = _
    rw [setPointsAux]
    cases hh2 : cp.h2 with
    | none =>
      simp only [hh2, Option.map_none']
      show (⟨_, _, _, _⟩ : PointRec) :: getPoints (setPointsAux (getPoints rest) (c + 2)) = _
      rw [ih (c + 2) hrest]
      show (⟨((round cp.pt.x : ℤ) : ℝ), ((round cp.pt.y : ℤ) : ℝ),
        (((round cp.h1.x : ℤ) : ℝ), ((round cp.h1.y : ℤ) : ℝ)), none⟩ : PointRec) :: _ =
        (⟨cp.pt.x, cp.pt.y, (cp.h1.x, cp.h1.y), cp.h2.map fun hh => (hh.x, hh.y)⟩ : PointRec) :: _
      rw [hcp.1.1.round_cast, hcp.1.2.round_cast, hcp.2.1.1.round_cast, hcp.2.1.2.round_cast,
        hh2]
      rfl
    | some hv =>
      have hhv : hv.Integral := hcp.2.2 hv (by rw [hh2]; rfl)
      simp only [hh2, Option.map_some']
      show (⟨_, _, _, _⟩ : PointRec) :: getPoints (setPointsAux (getPoints rest) (c + 3)) = _
      rw [ih (c + 3) hrest]
      show (⟨((round cp.pt.x : ℤ) : ℝ), ((round cp.pt.y : ℤ) : ℝ),
        (((round cp.h1.x : ℤ) : ℝ), ((round cp.h1.y : ℤ) : ℝ)),
        some (((round hv.x : ℤ) : ℝ), ((round hv.y : ℤ) : ℝ))⟩ : PointRec) :: _ =
        (⟨cp.pt.x, cp.pt.y, (cp.h1.x, cp.h1.y), cp.h2.map fun hh => (hh.x, hh.y)⟩ : PointRec) :: _
      rw [hcp.1.1.round_cast, hcp.1.2.round_cast, hcp.2.1.1.round_cast, hcp.2.1.2.round_cast,
        hhv.1.round_cast, hhv.2.round_cast, hh2]
      rfl

/-- C6 (amended: round-tripping is the identity on exports provided every
coordinate in the spline is an integer — which holds for any state produced
by import or by the structural edits, but can fail after a
tangent-constraint drag, whose raw quotient writes produce non-integer
coordinates that the import's rounding constructor then alters).  The `hp2`
field is present in a record exactly when the corresponding knot owns a
second handle. -/
theorem C6_round_trip (pts : List ConstructionPoint) (fresh : ℕ)
    (h : IntegralSpline pts) :
    getPoints (setPoints (getPoints pts) fresh) = getPoints pts ∧
    ∀ i : ℕ, ((getPoints pts)[i]?).map (fun r => r.hp2.isSome) =
      (pts[i]?).map (fun cp => cp.h2.isSome) := by
  refine ⟨roundtrip_aux pts fresh h, ?_⟩
  intro i
  unfold getPoints
  rw [List.getElem?_map]
  cases pts[i]? with
  | none => rfl
  | some cp =>
    simp [Option.isSome_map]

/-- Witness for C6: round-tripping the integer spline `tangentSpline`
reproduces its export exactly. -/
theorem C6_witness :
    getPoints (setPoints (getPoints tangentSpline) 100) = getPoints tangentSpline ∧
    ∀ i : ℕ, ((getPoints tangentSpline)[i]?).map (fun r => r.hp2.isSome) =
      (tangentSpline[i]?).map (fun cp => cp.h2.isSome) :=
  C6_round_trip tangentSpline 100 tangentSpline_integral

lemma tangent_drag_result :
    mouseMove tangentSpline (.handler1 0) dragPos true true true =
      some [{ tangentKnot with
          h1 := tangentKnot.h1.setCoords dragPos.x dragPos.y
          h2 := some (tangentH2.setCoords (-(6 / 5)) (-(8 / 5))) }] := by
  have hd1ne : getDistance dragPos tangentKnot.pt ≠ 0 := by
    rw [dragPos_d1]
    norm_num
  rw [mouseMove_handler1_ratio tangentSpline 0 tangentKnot tangentH2 dragPos true rfl rfl
    hd1ne]
  have hA : tangentKnot.pt.x + 1 / (getDistance dragPos tangentKnot.pt /
      getDistance tangentH2 tangentKnot.pt) * (tangentKnot.pt.x - dragPos.x) = -(6 / 5) := by
    rw [dragPos_d1, dragPos_d2]
    norm_num [tangentKnot, dragPos]
  have hB : tangentKnot.pt.y + 1 / (getDistance dragPos tangentKnot.pt /
      getDistance tangentH2 tangentKnot.pt) * (tangentKnot.pt.y - dragPos.y) = -(8 / 5) := by
    rw [dragPos_d1, dragPos_d2]
    norm_num [tangentKnot, dragPos]
  rw [hA, hB]
  rfl

/-- C6 counterexample: after the tangent-constraint drag that writes the
non-integer coordinate -6/5 into `handler2`, re-importing the export
rounds it to -1, so the re-export differs from the original export: the
round trip is NOT the identity for every reachable spline state. -/
theorem C6_counterexample :
    getPoints (setPoints (getPoints
        ((mouseMove tangentSpline (.handler1 0) dragPos true true true).getD [])) 100) ≠
      getPoints ((mouseMove tangentSpline (.handler1 0) dragPos true true true).getD []) := by
  rw [tangent_drag_result]
  simp only [Option.getD_some]
  have hexp : getPoints [{ tangentKnot with
      h1 := tangentKnot.h1.setCoords dragPos.x dragPos.y
      h2 := some (tangentH2.setCoords (-(6 / 5)) (-(8 / 5))) }] =
      [⟨0, 0, (3, 4), some (-(6 / 5), -(8 / 5))⟩] := by
    simp [getPoints, tangentKnot, tangentH2, dragPos, Point.setCoords]
  have hr0 : round (0 : ℝ) = 0 := round_zero
  have hr3 : round (3 : ℝ) = 3 := by
    rw [round_eq]
    norm_num
  have hr4 : round (4 : ℝ) = 4 := by
    rw [round_eq]
    norm_num
  have hrm : round (-(6 / 5) : ℝ) = -1 := by
    rw [round_eq]
    norm_num
  have hrm2 : round (-(8 / 5) : ℝ) = -2 := by
    rw [round_eq]
    norm_num
  unfold setPoints
  rw [hexp]
  have himp : getPoints (setPointsAux [⟨0, 0, (3, 4), some (-(6 / 5), -(8 / 5))⟩] 100) =
      [⟨0, 0, (3, 4), some (-1, -2)⟩] := by
    simp only [setPointsAux, getPoints, List.map_cons, List.map_nil, mkPoint, hr0, hr3, hr4,
      hrm, hrm2]
    norm_num
  rw [himp]
  intro heq
  rw [List.cons.injEq] at heq
  have h2eq := congrArg (fun r : PointRec => r.hp2) heq.1
  simp only [Option.some.injEq] at h2eq
  have hx := congrArg Prod.fst h2eq
  norm_num at hx

/-! ## C10: handle parent back-references -/

lemma wellParented_set {pts : List ConstructionPoint} {i : ℕ} {K : ConstructionPoint}
    (h : WellParented pts)
    (hK : K.h1.parent = some K.pt.id ∧ ∀ hh ∈ K.h2, hh.parent = some K.pt.id) :
    WellParented (pts.set i K) := by
  intro cp hcp
  rcases List.mem_or_eq_of_mem_set hcp with hmem | rfl
  · exact h cp hmem
  · exact hK

lemma wellParented_map_resetActive {pts : List ConstructionPoint}
    (h : WellParented pts) : WellParented (pts.map resetActive) := by
  intro cp hcp
  rcases List.mem_map.mp hcp with ⟨q, hq, rfl⟩
  obtain ⟨h1, h2⟩ := h q hq
  refine ⟨h1, ?_⟩
  intro hh hmem
  simp only [resetActive, Option.mem_def, Option.map_eq_some'] at hmem
  obtain ⟨a, ha, rfl⟩ := hmem
  exact h2 a ha

lemma setPointsAux_wellParented : ∀ (recs : List PointRec) (c : ℕ),
    WellParented (setPointsAux recs c) := by
  intro recs
  induction recs with
  | nil =>
    intro c cp hcp
    cases hcp
  | cons r rs ih =>
    intro c cp hcp
    rw [setPointsAux] at hcp
    cases hr : r.hp2 with
    | none =>
      rw [hr] at hcp
      rcases List.mem_cons.mp hcp with rfl | hmem
      · exact ⟨rfl, by intro hh hmem2; cases hmem2⟩
      · exact ih (c + 2) cp hmem
    | some q =>
      rw [hr] at hcp
      rcases List.mem_cons.mp hcp with rfl | hmem
      · refine ⟨rfl, ?_⟩
        intro hh hmem2
        rw [Option.mem_def, Option.some.injEq] at hmem2
        subst hmem2
        rfl
      · exact ih (c + 3) cp hmem

lemma append_wellParented (pts : List ConstructionPoint) (pos : Point) (nat : Bool)
    (sf : ℝ) (fresh : ℕ) (h : WellParented pts) :
    WellParented (appendConstructionPoint pts pos nat sf fresh) := by
  cases nat with
  | true =>
    simp only [appendConstructionPoint, if_true]
    have hbase : WellParented (pts.map resetActive ++
        [(⟨mkPoint fresh pos.x pos.y,
           { mkPoint (fresh + 1) pos.x pos.y with parent := some fresh },
           some { mkPoint (fresh + 2) pos.x pos.y with parent := some fresh, active := true },
           false⟩ : ConstructionPoint)]) := by
      intro q hq
      rcases List.mem_append.mp hq with hmem | hmem
      · exact wellParented_map_resetActive h q hmem
      · rw [List.mem_singleton] at hmem
        subst hmem
        refine ⟨rfl, ?_⟩
        intro hh hmem2
        rw [Option.mem_def, Option.some.injEq] at hmem2
        subst hmem2
        rfl
    split
    · split
      next D hD =>
        have hDwp := hbase D (List.getElem?_mem hD)
        split
        next Dh2 hDh2 => exact wellParented_set hbase ⟨rfl, hDwp.2⟩
        next => exact hbase
      next => exact hbase
    · exact hbase
  | false =>
    simp only [appendConstructionPoint, Bool.false_eq_true, if_false]
    have hbase : WellParented (pts.map resetActive ++
        [(⟨mkPoint fresh pos.x pos.y,
           { ({ mkPoint (fresh + 1) pos.x pos.y with parent := some fresh } : Point) with
               active := true }, none, false⟩ : ConstructionPoint)]) := by
      intro q hq
      rcases List.mem_append.mp hq with hmem | hmem
      · exact wellParented_map_resetActive h q hmem
      · rw [List.mem_singleton] at hmem
        subst hmem
        exact ⟨rfl, by intro hh hmem2; cases hmem2⟩
    split
    · split
      next D hD =>
        have hDwp := hbase D (List.getElem?_mem hD)
        refine wellParented_set hbase ⟨hDwp.1, ?_⟩
        intro hh hmem2
        rw [Option.mem_def, Option.some.injEq] at hmem2
        subst hmem2
        rfl
      next => exact hbase
    · exact hbase

lemma wellParented_match_insert {X : List ConstructionPoint} {P : ConstructionPoint}
    {f : ConstructionPoint → Bool} (hX : WellParented X)
    (hP : P.h1.parent = some P.pt.id ∧ ∀ hh ∈ P.h2, hh.parent = some P.pt.id) :
    WellParented (match X.findIdx? f with
                  | some j => X.insertIdx (j + 1) P
                  | none => X) := by
  split
  next j hj =>
    intro cp hcp
    rcases mem_insertIdx_weak hcp with rfl | hmem
    · exact hP
    · exact hX cp hmem
  next => exact hX

lemma knotInsertion_wellParented (pts : List ConstructionPoint) (t : ℝ) (i fresh : ℕ)
    (h : WellParented pts) : WellParented (knotInsertion pts t i fresh) := by
  unfold knotInsertion
  cases hK0 : pts[i]? with
  | none => exact h
  | some K0 =>
    cases hK3 : pts[i + 1]? with
    | none => exact h
    | some K3 =>
      have hK0w := wellParented_map_resetActive h (resetActive K0)
        (List.mem_map.mpr ⟨K0, List.getElem?_mem hK0, rfl⟩)
      have hK3w := wellParented_map_resetActive h (resetActive K3)
        (List.mem_map.mpr ⟨K3, List.getElem?_mem hK3, rfl⟩)
      refine wellParented_match_insert ?_ ?_
      · refine wellParented_set (wellParented_set (wellParented_map_resetActive h) ?_) ?_
        · dsimp only
          split
          · refine ⟨hK0w.1, ?_⟩
            intro hh hmem
            simp only [Option.mem_def, Option.map_eq_some'] at hmem
            obtain ⟨a, ha, rfl⟩ := hmem
            exact hK0w.2 a ha
          · exact ⟨hK0w.1, hK0w.2⟩
        · exact ⟨hK3w.1, hK3w.2⟩
      · refine ⟨rfl, ?_⟩
        intro hh hmem
        rw [Option.mem_def, Option.some.injEq] at hmem
        subst hmem
        rfl

lemma postRemovalFix_wellParented (pts : List ConstructionPoint) (nat : Bool) (fresh : ℕ)
    (h : WellParented pts) : WellParented (postRemovalFix pts nat fresh) := by
  unfold postRemovalFix
  split
  · split
    next K0 hK0 =>
      split
      next h2v hh2 =>
        have hfix1 : WellParented (pts.set 0
            { K0 with h1 := { h2v.clone fresh with parent := some K0.pt.id }, h2 := none }) := by
          refine wellParented_set h ⟨rfl, ?_⟩
          intro hh hmem
          cases hmem
        dsimp only
        split
        next KL hKL =>
          have hKLwp := hfix1 KL (List.getElem?_mem hKL)
          exact wellParented_set hfix1 ⟨hKLwp.1, by intro hh hmem; cases hmem⟩
        next => exact hfix1
      next =>
        dsimp only
        split
        next KL hKL =>
          have hKLwp := h KL (List.getElem?_mem hKL)
          exact wellParented_set h ⟨hKLwp.1, by intro hh hmem; cases hmem⟩
        next => exact h
    next =>
      dsimp only
      split
      next KL hKL =>
        have hKLwp := h KL (List.getElem?_mem hKL)
        exact wellParented_set h ⟨hKLwp.1, by intro hh hmem; cases hmem⟩
      next => exact h
  · exact h

lemma remove_wellParented (pts : List ConstructionPoint) (tid : ℕ) (nat : Bool)
    (fresh : ℕ) (h : WellParented pts) :
    WellParented (removeConstructionPoint pts tid nat fresh) := by
  unfold removeConstructionPoint
  split
  next =>
    exact postRemovalFix_wellParented _ _ _ fun cp hcp => h cp (List.mem_of_mem_eraseIdx hcp)
  next j hj =>
    split
    next => exact h
    next N hN =>
      refine postRemovalFix_wellParented _ _ _ ?_
      intro cp hcp
      have hcp2 := List.mem_of_mem_eraseIdx hcp
      clear hcp
      split at hcp2
      · split at hcp2
        next KP KN h2v hKP hKN hh2 =>
          have hKPwp := h KP (List.getElem?_mem hKP)
          have hKNwp := h KN (List.getElem?_mem hKN)
          split at hcp2
          · exact h cp hcp2
          · rcases List.mem_or_eq_of_mem_set hcp2 with hmem2 | rfl
            · rcases List.mem_or_eq_of_mem_set hmem2 with hmem3 | rfl
              · exact h cp hmem3
              · split
                · refine ⟨hKPwp.1, ?_⟩
                  intro hh hmem
                  simp only [Option.mem_def, Option.map_eq_some'] at hmem
                  obtain ⟨a, ha, rfl⟩ := hmem
                  exact hKPwp.2 a ha
                · exact ⟨hKPwp.1, hKPwp.2⟩
            · exact ⟨hKNwp.1, hKNwp.2⟩
        next => exact h cp hcp2
      · exact h cp hcp2

/-- C10: after import (`setPoints`), append, subdivision insertion, and
removal, every non-null handle of every knot carries its owning knot's id
in its `parent` back-reference (every handle assignment in these operations
goes through the `handler1`/`handler2` setters, which write the
back-reference, or copies coordinates only), so `isHandler1`/`isHandler2`
resolve against the correct owner. -/
theorem C10_handles_well_parented :
    (∀ (recs : List PointRec) (fresh : ℕ), WellParented (setPoints recs fresh)) ∧
    (∀ (pts : List ConstructionPoint) (pos : Point) (nat : Bool) (sf : ℝ) (fresh : ℕ),
      WellParented pts → WellParented (appendConstructionPoint pts pos nat sf fresh)) ∧
    (∀ (pts : List ConstructionPoint) (t : ℝ) (i fresh : ℕ),
      WellParented pts → WellParented (knotInsertion pts t i fresh)) ∧
    (∀ (pts : List ConstructionPoint) (tid : ℕ) (nat : Bool) (fresh : ℕ),
      WellParented pts → WellParented (removeConstructionPoint pts tid nat fresh)) :=
  ⟨fun recs fresh => setPointsAux_wellParented recs fresh,
   fun pts pos nat sf fresh h => append_wellParented pts pos nat sf fresh h,
   fun pts t i fresh h => knotInsertion_wellParented pts t i fresh h,
   fun pts tid nat fresh h => remove_wellParented pts tid nat fresh h⟩

lemma segSpline_wellParented : WellParented segSpline := by
  intro cp hcp
  rw [segSpline, List.mem_cons, List.mem_singleton] at hcp
  rcases hcp with rfl | rfl
  · refine ⟨rfl, ?_⟩
    intro hh hmem
    rw [show segKnotA.h2 = some ⟨2, 1, 0, false, some 0⟩ from rfl, Option.mem_def,
      Option.some.injEq] at hmem
    subst hmem
    rfl
  · refine ⟨rfl, ?_⟩
    intro hh hmem
    rw [show segKnotB.h2 = some ⟨5, 11, 0, false, some 3⟩ from rfl, Option.mem_def,
      Option.some.injEq] at hmem
    subst hmem
    rfl

/-- Witness for C10: the concrete spline `segSpline` is well-parented, and
a subdivision insertion into it stays well-parented. -/
theorem C10_witness : WellParented (knotInsertion segSpline (1 / 2) 0 20) :=
  C10_handles_well_parented.2.2.1 segSpline (1 / 2) 0 20 segSpline_wellParented

/-! ## C3: degeneracy guard of the removal fusion -/

lemma postRemovalFix_natural (pts : List ConstructionPoint) (fresh : ℕ) :
    postRemovalFix pts true fresh = pts := by
  unfold postRemovalFix
  rw [if_neg (by simp)]

/-- C3 (amended: the source guard is `!isNaN(k)`, and `k = d2/d1` is `NaN`
only for `0/0`; so the fusion is skipped — leaving the adjacent handles
exactly unchanged in natural mode — precisely when BOTH handle distances of
the removed knot are zero.  A zero `k` with `d1 ≠ 0` passes the guard and
divides by zero in the `P2'` formula, overwriting the next knot's incoming
handle, see the counterexample). -/
theorem C3_degenerate_guard (pts : List ConstructionPoint) (j : ℕ)
    (N : ConstructionPoint) (h2 : Point) (tid fresh : ℕ)
    (hidx : lastIdxWithId pts tid = some j) (hN : pts[j]? = some N)
    (hfrom : N.fromCasteljau = true) (hj : 1 ≤ j) (hjlen : j + 1 < pts.length)
    (hh2 : N.h2 = some h2)
    (hd2 : getDistance h2 N.pt = 0) (hd1 : getDistance N.h1 N.pt = 0) :
    removeConstructionPoint pts tid true fresh = pts.eraseIdx j := by
  unfold removeConstructionPoint
  rw [hidx]
  simp only [hN]
  obtain ⟨KP, hKP⟩ : ∃ KP, pts[j - 1]? = some KP := by
    have : j - 1 < pts.length := by omega
    cases hx : pts[j - 1]? with
    | none =>
      rw [List.getElem?_eq_none_iff] at hx
      omega
    | some KP => exact ⟨KP, rfl⟩
  obtain ⟨KN, hKN⟩ : ∃ KN, pts[j + 1]? = some KN := by
    cases hx : pts[j + 1]? with
    | none =>
      rw [List.getElem?_eq_none_iff] at hx
      omega
    | some KN => exact ⟨KN, rfl⟩
  rw [if_pos ⟨hfrom, hj, hjlen⟩]
  simp only [hKP, hKN, hh2]
  rw [if_pos ⟨hd2, hd1⟩]
  exact postRemovalFix_natural _ _

lemma guard_d2 : getDistance ⟨5, 6, 0, false, some 3⟩ guardKnotN.pt = 0 := by
  unfold getDistance guardKnotN
  simp

lemma guard_d1 : getDistance guardKnotN.h1 guardKnotN.pt = 0 := by
  unfold getDistance guardKnotN
  simp

/-- Witness for C3: removing the `fromCasteljau` knot whose two handles
both collapsed onto the knot (ratio `0/0`, `NaN`) just splices it out of
the natural-mode spline, leaving the neighbours untouched. -/
theorem C3_witness :
    removeConstructionPoint guardSpline 3 true 50 = guardSpline.eraseIdx 1 :=
  C3_degenerate_guard guardSpline 1 guardKnotN ⟨5, 6, 0, false, some 3⟩ 3 50 rfl rfl rfl
    (le_refl 1) (by norm_num [guardSpline]) rfl guard_d2 guard_d1

lemma rem_d2 : getDistance ⟨5, 6, 0, false, some 3⟩ remKnotN.pt = 0 := by
  unfold getDistance remKnotN
  simp

lemma rem_d1 : getDistance remKnotN.h1 remKnotN.pt = 3 := by
  unfold getDistance remKnotN
  exact sqrt_eval (by norm_num) (by norm_num)

/-- C3 counterexample: removing a `fromCasteljau` knot whose ratio `k` is
zero (its `handler2` collapsed onto the knot while `handler1` did not:
`k = 0/3 = 0`) is NOT skipped: the guard only catches `NaN`, and the
`P2' = ((1+k)P2 - P3)/k` formula divides by zero, overwriting the next
knot's incoming handle — here (5,5) becomes (0,0) (in JavaScript the write
is `-Infinity`/`Infinity`; with Lean's `x/0 = 0` convention it is 0 —
either way the handle is changed, refuting "left exactly unchanged"). -/
theorem C3_counterexample :
    getDistance ⟨5, 6, 0, false, some 3⟩ remKnotN.pt /
        getDistance remKnotN.h1 remKnotN.pt = 0 ∧
    ((removeConstructionPoint remSpline 3 true 50)[1]?).map
        (fun cp => (cp.h1.x, cp.h1.y)) = some ((0 : ℝ), (0 : ℝ)) ∧
    (remKnotB.h1.x, remKnotB.h1.y) = ((5 : ℝ), (5 : ℝ)) ∧
    ((0 : ℝ), (0 : ℝ)) ≠ ((5 : ℝ), (5 : ℝ)) := by
  refine ⟨by rw [rem_d2, rem_d1]; norm_num, ?_, rfl, ?_⟩
  swap
  · intro hEq
    have := congrArg Prod.fst hEq
    norm_num at this
  unfold removeConstructionPoint
  rw [show lastIdxWithId remSpline 3 = some 1 from rfl]
  simp only [show remSpline[1]? = some remKnotN from rfl]
  rw [if_pos (⟨rfl, le_refl 1, by norm_num [remSpline]⟩ :
    remKnotN.fromCasteljau = true ∧ 1 ≤ 1 ∧ 1 + 1 < remSpline.length)]
  simp only [show remSpline[1 - 1]? = some segKnotA from rfl,
    show remSpline[1 + 1]? = some remKnotB from rfl,
    show remKnotN.h2 = some ⟨5, 6, 0, false, some 3⟩ from rfl]
  rw [if_neg (fun hc => by rw [rem_d1] at hc; norm_num at hc)]
  rw [postRemovalFix_natural]
  simp only [rem_d2, rem_d1]
  have hr0 : round (0 : ℝ) = 0 := round_zero
  have hr1 : round (1 : ℝ) = 1 := by
    rw [round_eq]
    norm_num
  norm_num [remSpline, segKnotA, remKnotN, remKnotB, Point.setCoords, mkPoint,
    Option.getD_some, List.set_cons_zero, List.set_cons_succ, List.eraseIdx_cons_succ,
    List.eraseIdx_cons_zero, hr0, hr1]

/-! ## C2: subdivision followed by removal -/

lemma distRaw_right (P7 P8 : ℝ × ℝ) (t : ℝ) (ht1 : t ≤ 1) :
    distRaw P8 (weightedRaw P7 P8 t) = (1 - t) * distRaw P7 P8 := by
  unfold distRaw weightedRaw
  have h : (P8.1 - (P7.1 * (1 - t) + P8.1 * t)) ^ 2 +
      (P8.2 - (P7.2 * (1 - t) + P8.2 * t)) ^ 2 =
      (1 - t) ^ 2 * ((P7.1 - P8.1) ^ 2 + (P7.2 - P8.2) ^ 2) := by ring
  rw [h, Real.sqrt_mul (sq_nonneg _), Real.sqrt_sq (by linarith)]

lemma distRaw_left (P7 P8 : ℝ × ℝ) (t : ℝ) (ht0 : 0 ≤ t) :
    distRaw P7 (weightedRaw P7 P8 t) = t * distRaw P7 P8 := by
  unfold distRaw weightedRaw
  have h : (P7.1 - (P7.1 * (1 - t) + P8.1 * t)) ^ 2 +
      (P7.2 - (P7.2 * (1 - t) + P8.2 * t)) ^ 2 =
      t ^ 2 * ((P7.1 - P8.1) ^ 2 + (P7.2 - P8.2) ^ 2) := by ring
  rw [h, Real.sqrt_mul (sq_nonneg _), Real.sqrt_sq ht0]

lemma distRaw_pos {P Q : ℝ × ℝ} (h : P ≠ Q) : 0 < distRaw P Q := by
  unfold distRaw
  apply Real.sqrt_pos.mpr
  rcases lt_or_eq_of_le (by positivity : (0:ℝ) ≤ (P.1 - Q.1) ^ 2 + (P.2 - Q.2) ^ 2) with
    hlt | heq
  · exact hlt
  · exfalso
    apply h
    have h1 : (P.1 - Q.1) ^ 2 = 0 := by nlinarith [sq_nonneg (P.1 - Q.1), sq_nonneg (P.2 - Q.2)]
    have h2 : (P.2 - Q.2) ^ 2 = 0 := by nlinarith [sq_nonneg (P.1 - Q.1), sq_nonneg (P.2 - Q.2)]
    have e1 := (pow_eq_zero_iff two_ne_zero).mp h1
    have e2 := (pow_eq_zero_iff two_ne_zero).mp h2
    exact Prod.ext (by linarith) (by linarith)

/-- C2 (amended: the restoration is exact when the `Point`-constructor
rounding is disregarded, i.e. over exact real arithmetic; with the
implementation's rounding to integer coordinates the restoration can be off
by whole pixels, beyond any floating-point tolerance — see the
counterexample).  For the exact De Casteljau triangle at `0 < t < 1` with
`P7 ≠ P8`, the removal ratio computed from the inserted knot's handles is
`(1-t)/t` and the fusion formulas return exactly the original interior
control points `P1`, `P2`. -/
theorem C2_exact_inverse (t : ℝ) (P0 P1 P2 P3 P4 P5 P6 P7 P8 P9 : ℝ × ℝ)
    (hP4 : P4 = weightedRaw P0 P1 t) (_hP5 : P5 = weightedRaw P1 P2 t)
    (hP6 : P6 = weightedRaw P2 P3 t) (_hP7 : P7 = weightedRaw P4 P5 t)
    (_hP8 : P8 = weightedRaw P5 P6 t) (hP9 : P9 = weightedRaw P7 P8 t)
    (ht0 : 0 < t) (ht1 : t < 1) (hdeg : P7 ≠ P8) :
    fusionExact (distRaw P8 P9 / distRaw P7 P9) P0 P4 P6 P3 = (P1, P2) := by
  have hD := distRaw_pos hdeg
  have hk : distRaw P8 P9 / distRaw P7 P9 = (1 - t) / t := by
    rw [hP9, distRaw_right _ _ _ (le_of_lt ht1), distRaw_left _ _ _ (le_of_lt ht0)]
    field_simp
    ring
  rw [hk, hP4, hP6]
  have ht : t ≠ 0 := ne_of_gt ht0
  have h1t : 1 - t ≠ 0 := by
    intro hc
    linarith
  unfold fusionExact weightedRaw
  refine Prod.ext (Prod.ext ?_ ?_) (Prod.ext ?_ ?_) <;>
    (show _ = _; field_simp; ring)

/-- Witness for C2: the exact pipeline at `t = 1/2` on the collinear
segment (0,0), (1,0), (9,0), (10,0) restores (1,0) and (9,0) exactly. -/
theorem C2_exact_inverse_witness :
    fusionExact
      (distRaw (weightedRaw (weightedRaw (1, 0) (9, 0) (1 / 2))
          (weightedRaw (9, 0) (10, 0) (1 / 2)) (1 / 2))
        (weightedRaw
          (weightedRaw (weightedRaw (0, 0) (1, 0) (1 / 2))
            (weightedRaw (1, 0) (9, 0) (1 / 2)) (1 / 2))
          (weightedRaw (weightedRaw (1, 0) (9, 0) (1 / 2))
            (weightedRaw (9, 0) (10, 0) (1 / 2)) (1 / 2)) (1 / 2)) /
       distRaw (weightedRaw (weightedRaw (0, 0) (1, 0) (1 / 2))
          (weightedRaw (1, 0) (9, 0) (1 / 2)) (1 / 2))
        (weightedRaw
          (weightedRaw (weightedRaw (0, 0) (1, 0) (1 / 2))
            (weightedRaw (1, 0) (9, 0) (1 / 2)) (1 / 2))
          (weightedRaw (weightedRaw (1, 0) (9, 0) (1 / 2))
            (weightedRaw (9, 0) (10, 0) (1 / 2)) (1 / 2)) (1 / 2)))
      (0, 0) (weightedRaw (0, 0) (1, 0) (1 / 2)) (weightedRaw (9, 0) (10, 0) (1 / 2))
      (10, 0) = ((1, 0), (9, 0)) :=
  C2_exact_inverse (1 / 2) (0, 0) (1, 0) (9, 0) (10, 0) _ _ _ _ _ _ rfl rfl rfl rfl rfl rfl
    (by norm_num) (by norm_num)
    (by
      simp only [weightedRaw, ne_eq, Prod.mk.injEq]
      norm_num)

lemma segSpline_insert_eval :
    knotInsertion segSpline (1 / 2) 0 20 = insSpline := by
  simp only [knotInsertion, segSpline, List.getElem?_cons_zero, List.getElem?_cons_succ]
  norm_num [segKnotA, segKnotB, insSpline, insKnotN, segKnotB2, weighted, mkPoint,
    resetActive, Point.setCoords, round_eq, List.findIdx?_cons, List.findIdx?_nil,
    List.insertIdx_succ_cons, List.insertIdx_zero]

lemma segSpline_remove_eval :
    removeConstructionPoint insSpline 26 true 40 =
      [{ segKnotA with h2 := some ⟨2, 2, 0, false, some 0⟩ }, segKnotB2] := by
  unfold removeConstructionPoint
  rw [show lastIdxWithId insSpline 26 = some 1 from rfl]
  simp only [show insSpline[1]? = some insKnotN from rfl]
  rw [if_pos (⟨rfl, le_refl 1, by norm_num [insSpline]⟩ :
    insKnotN.fromCasteljau = true ∧ 1 ≤ 1 ∧ 1 + 1 < insSpline.length)]
  simp only [show insSpline[1 - 1]? = some segKnotA from rfl,
    show insSpline[1 + 1]? = some segKnotB2 from rfl,
    show insKnotN.h2 = some ⟨24, 8, 0, false, some 26⟩ from rfl]
  rw [if_neg (fun hc => by rw [rem2_d2] at hc; norm_num at hc)]
  rw [postRemovalFix_natural]
  simp only [rem2_d2, rem2_d1]
  norm_num [insSpline, segKnotA, insKnotN, segKnotB2, Point.setCoords, mkPoint, round_eq,
    Option.getD_some, List.set_cons_zero, List.set_cons_succ, List.eraseIdx_cons_succ,
    List.eraseIdx_cons_zero]

/-- C2 counterexample: with the implementation's integer rounding, inserting
a knot at `t = 1/2` on the segment ((0,0),(1,0),(9,0),(10,0)) of
`segSpline` and removing that same knot moves the previous knot's outgoing
handle from (1,0) to (2,0) (and had already moved the next knot's incoming
handle from (9,0) to (10,0)) — an error of a whole pixel, far beyond
floating-point tolerance, although the degeneracy guard is not triggered
(the removed knot's handle distances are 2 and 3). -/
theorem C2_counterexample :
    ((removeConstructionPoint (knotInsertion segSpline (1 / 2) 0 20) 26 true 40)[0]?).map
        (fun cp => cp.h2.map fun hh => (hh.x, hh.y)) = some (some ((2 : ℝ), (0 : ℝ))) ∧
    segKnotA.h2.map (fun hh => (hh.x, hh.y)) = some ((1 : ℝ), (0 : ℝ)) ∧
    ((2 : ℝ), (0 : ℝ)) ≠ ((1 : ℝ), (0 : ℝ)) ∧
    getDistance ⟨24, 8, 0, false, some 26⟩ insKnotN.pt = 2 ∧
    getDistance insKnotN.h1 insKnotN.pt = 3 := by
  rw [segSpline_insert_eval, segSpline_remove_eval]
  refine ⟨rfl, rfl, ?_, rem2_d2, rem2_d1⟩
  intro hEq
  have := congrArg Prod.fst hEq
  norm_num at this

/-! ## C1: regularly placed points -/

lemma getLength_nonneg (bz : BezierUtils) : 0 ≤ bz.getLength :=
  Finset.sum_nonneg fun _ _ => Real.sqrt_nonneg _

lemma sum_getLength_nonneg (bzs : List BezierUtils) :
    0 ≤ (bzs.map BezierUtils.getLength).sum := by
  induction bzs with
  | nil => simp
  | cons bz rest ih =>
    simp only [List.map_cons, List.sum_cons]
    exact add_nonneg (getLength_nonneg bz) ih

lemma floor_ratio_mono (count : ℕ) {L a b : ℝ} (hL : 0 < L) (hab : a ≤ b) :
    ⌊a / L * (count : ℝ)⌋ ≤ ⌊b / L * (count : ℝ)⌋ := by
  apply Int.floor_mono
  gcongr

lemma beziers_length (pts : List ConstructionPoint) :
    (beziers pts).length = pts.length - 1 := by
  unfold beziers
  rw [List.length_map, List.length_zip, List.length_tail]
  omega

lemma grppLoop_length (count : ℕ) (L : ℝ) (hL : 0 < L) (n : ℕ) :
    ∀ (bzs : List BezierUtils) (cd : ℝ) (drawn : ℤ) (idx : ℕ),
      drawn = ⌊cd / L * (count : ℝ)⌋ →
      (grppLoop count L n bzs cd drawn idx).length =
        (⌊(cd + (bzs.map BezierUtils.getLength).sum) / L * (count : ℝ)⌋ - drawn).toNat := by
  intro bzs
  induction bzs with
  | nil =>
    intro cd drawn idx h
    simp only [grppLoop, List.length_nil, List.map_nil, List.sum_nil, add_zero]
    omega
  | cons bz rest ih =>
    intro cd drawn idx h
    have hA : ⌊cd / L * (count : ℝ)⌋ ≤ ⌊(cd + bz.getLength) / L * (count : ℝ)⌋ :=
      floor_ratio_mono count hL (le_add_of_nonneg_right (getLength_nonneg bz))
    have hB : ⌊(cd + bz.getLength) / L * (count : ℝ)⌋ ≤
        ⌊(cd + bz.getLength + (rest.map BezierUtils.getLength).sum) / L * (count : ℝ)⌋ :=
      floor_ratio_mono count hL (le_add_of_nonneg_right (sum_getLength_nonneg rest))
    simp only [grppLoop, List.length_append, List.map_cons, List.sum_cons]
    rw [ih (cd + bz.getLength) _ (idx + 1) (by rw [h]; ring)]
    rw [show cd + (bz.getLength + (rest.map BezierUtils.getLength).sum) =
      cd + bz.getLength + (rest.map BezierUtils.getLength).sum from by ring]
    split
    · rw [List.length_map, List.length_range]
      omega
    · simp only [List.length_nil]
      omega

lemma grppShares_take (count : ℕ) (L : ℝ) :
    ∀ (bzs : List BezierUtils) (cd : ℝ) (drawn : ℤ) (i : ℕ), i < bzs.length →
      ((grppShares count L bzs cd drawn).take (i + 1)).sum =
        ⌊(cd + ((bzs.take (i + 1)).map BezierUtils.getLength).sum) / L * (count : ℝ)⌋ - drawn := by
  intro bzs
  induction bzs with
  | nil =>
    intro cd drawn i hi
    simp at hi
  | cons bz rest ih =>
    intro cd drawn i hi
    cases i with
    | zero =>
      simp only [grppShares, List.take_succ_cons, List.take_zero, List.sum_cons, List.sum_nil,
        List.map_cons, List.map_nil, add_zero]
    | succ j =>
      simp only [grppShares, List.take_succ_cons, List.sum_cons, List.map_cons]
      rw [ih (cd + bz.getLength) _ j
        (by simp only [List.length_cons] at hi; omega)]
      rw [show cd + (bz.getLength + ((rest.take (j + 1)).map BezierUtils.getLength).sum) =
        cd + bz.getLength + ((rest.take (j + 1)).map BezierUtils.getLength).sum from by ring]
      ring

lemma allocFloor_last (pts : List ConstructionPoint) (count : ℕ)
    (hL : 0 < totalLength pts) :
    allocFloor pts count ((beziers pts).length - 1) = count := by
  unfold allocFloor
  rcases Nat.eq_zero_or_pos (beziers pts).length with h0 | hpos
  · rw [h0]
    rw [show (0 : ℕ) - 1 + 1 = 1 from rfl]
    rw [List.take_of_length_le (by omega)]
    show ⌊totalLength pts / totalLength pts * (count : ℝ)⌋ = count
    rw [div_self (ne_of_gt hL), one_mul, Int.floor_natCast]
  · rw [show (beziers pts).length - 1 + 1 = (beziers pts).length from by omega]
    rw [List.take_length]
    show ⌊totalLength pts / totalLength pts * (count : ℝ)⌋ = count
    rw [div_self (ne_of_gt hL), one_mul, Int.floor_natCast]

/-- C1 (amended: the count guarantee additionally needs the total estimated
length to be positive).  With fewer than two knots the result is empty.
With at least two knots and positive total length, exactly `count` points
are produced, and after each segment the cumulative number of allocated
shares equals the round-down proportional target
`floor(cumulativeLength / totalLength * count)`; for the last segment that
target is exactly `count`, so the last segment indeed receives all of the
remaining unallocated count — but through the exact telescoping of the
floor targets, not through the source's `index === bz.length - 1` branch,
which compares against the never-assigned `BezierUtils.length` field and is
dead code.  When the total length is zero (possible with two or more
coincident knots) every floor target is `floor(0/0 * count) = 0` and the
result is empty, not `count` points. -/
theorem C1_regularly_placed (pts : List ConstructionPoint) (count : ℕ) :
    (pts.length < 2 → getRegularlyPlacedPoints pts count = []) ∧
    (2 ≤ pts.length → 0 < totalLength pts →
      (getRegularlyPlacedPoints pts count).length = count ∧
      (∀ i, i < (beziers pts).length →
        ((allocShares pts count).take (i + 1)).sum = allocFloor pts count i) ∧
      allocFloor pts count ((beziers pts).length - 1) = count) := by
  constructor
  · intro h
    unfold getRegularlyPlacedPoints
    rw [if_pos h]
  · intro h2 hL
    have hnot : ¬ pts.length < 2 := by omega
    refine ⟨?_, ?_, allocFloor_last pts count hL⟩
    · unfold getRegularlyPlacedPoints
      rw [if_neg hnot]
      rw [grppLoop_length count (totalLength pts) hL (beziers pts).length (beziers pts) 0 0 0
        (by norm_num)]
      rw [zero_add]
      show (⌊totalLength pts / totalLength pts * (count : ℝ)⌋ - 0).toNat = count
      rw [div_self (ne_of_gt hL), one_mul, Int.floor_natCast]
      omega
    · intro i hi
      unfold allocShares allocFloor
      rw [if_neg hnot]
      rw [grppShares_take count (totalLength pts) (beziers pts) 0 0 i hi]
      rw [zero_add, sub_zero]

lemma lineSpline_beziers :
    beziers lineSpline =
      [⟨⟨0, 0, 0, false, none⟩, ⟨2, 200, 0, false, some 0⟩,
        ⟨4, 400, 0, false, some 3⟩, ⟨3, 600, 0, false, none⟩, 200⟩] := rfl

lemma lineBz_raw (t : ℝ) :
    rawBezier (⟨0, 0, 0, false, none⟩ : Point) ⟨2, 200, 0, false, some 0⟩
      ⟨4, 400, 0, false, some 3⟩ ⟨3, 600, 0, false, none⟩ t = (600 * t, 0) := by
  simp only [rawBezier, Prod.mk.injEq]
  constructor <;> ring

lemma lineBz_getLength :
    (⟨⟨0, 0, 0, false, none⟩, ⟨2, 200, 0, false, some 0⟩,
      ⟨4, 400, 0, false, some 3⟩, ⟨3, 600, 0, false, none⟩, 200⟩ : BezierUtils).getLength =
      594 := by
  unfold BezierUtils.getLength
  have h : ∀ i ∈ Finset.range 99,
      Real.sqrt
        (((rawBezier (⟨0, 0, 0, false, none⟩ : Point) ⟨2, 200, 0, false, some 0⟩
              ⟨4, 400, 0, false, some 3⟩ ⟨3, 600, 0, false, none⟩ ((i + 1 : ℕ) / 100)).1 -
            (rawBezier (⟨0, 0, 0, false, none⟩ : Point) ⟨2, 200, 0, false, some 0⟩
              ⟨4, 400, 0, false, some 3⟩ ⟨3, 600, 0, false, none⟩ ((i : ℕ) / 100)).1) ^ 2 +
          ((rawBezier (⟨0, 0, 0, false, none⟩ : Point) ⟨2, 200, 0, false, some 0⟩
              ⟨4, 400, 0, false, some 3⟩ ⟨3, 600, 0, false, none⟩ ((i + 1 : ℕ) / 100)).2 -
            (rawBezier (⟨0, 0, 0, false, none⟩ : Point) ⟨2, 200, 0, false, some 0⟩
              ⟨4, 400, 0, false, some 3⟩ ⟨3, 600, 0, false, none⟩ ((i : ℕ) / 100)).2) ^ 2) =
        6 := by
    intro i _
    rw [lineBz_raw, lineBz_raw]
    exact sqrt_eval (by norm_num) (by push_cast; ring)
  rw [Finset.sum_congr rfl h, Finset.sum_const, Finset.card_range]
  norm_num

lemma lineSpline_totalLength : totalLength lineSpline = 594 := by
  unfold totalLength
  rw [lineSpline_beziers]
  simp only [List.map_cons, List.map_nil, List.sum_cons, List.sum_nil, add_zero]
  exact lineBz_getLength

/-- Witness for C1: the straight-line spline has two knots, total estimated
length 594 > 0, and `getRegularlyPlacedPoints` with `count = 5` produces
exactly 5 points, with the final floor target equal to 5. -/
theorem C1_witness :
    2 ≤ lineSpline.length ∧ 0 < totalLength lineSpline ∧
    (getRegularlyPlacedPoints lineSpline 5).length = 5 ∧
    allocFloor lineSpline 5 ((beziers lineSpline).length - 1) = 5 := by
  have hL : 0 < totalLength lineSpline := by
    rw [lineSpline_totalLength]
    norm_num
  have h2 : 2 ≤ lineSpline.length := by
    simp [lineSpline]
  exact ⟨h2, hL, ((C1_regularly_placed lineSpline 5).2 h2 hL).1,
    ((C1_regularly_placed lineSpline 5).2 h2 hL).2.2⟩

lemma degenSpline_beziers :
    beziers degenSpline =
      [⟨⟨0, 0, 0, false, none⟩, ⟨2, 0, 0, false, some 0⟩,
        ⟨4, 0, 0, false, some 3⟩, ⟨3, 0, 0, false, none⟩, 200⟩] := rfl

lemma degenBz_getLength :
    (⟨⟨0, 0, 0, false, none⟩, ⟨2, 0, 0, false, some 0⟩,
      ⟨4, 0, 0, false, some 3⟩, ⟨3, 0, 0, false, none⟩, 200⟩ : BezierUtils).getLength = 0 := by
  unfold BezierUtils.getLength
  have h : ∀ i ∈ Finset.range 99,
      Real.sqrt
        (((rawBezier (⟨0, 0, 0, false, none⟩ : Point) ⟨2, 0, 0, false, some 0⟩
              ⟨4, 0, 0, false, some 3⟩ ⟨3, 0, 0, false, none⟩ ((i + 1 : ℕ) / 100)).1 -
            (rawBezier (⟨0, 0, 0, false, none⟩ : Point) ⟨2, 0, 0, false, some 0⟩
              ⟨4, 0, 0, false, some 3⟩ ⟨3, 0, 0, false, none⟩ ((i : ℕ) / 100)).1) ^ 2 +
          ((rawBezier (⟨0, 0, 0, false, none⟩ : Point) ⟨2, 0, 0, false, some 0⟩
              ⟨4, 0, 0, false, some 3⟩ ⟨3, 0, 0, false, none⟩ ((i + 1 : ℕ) / 100)).2 -
            (rawBezier (⟨0, 0, 0, false, none⟩ : Point) ⟨2, 0, 0, false, some 0⟩
              ⟨4, 0, 0, false, some 3⟩ ⟨3, 0, 0, false, none⟩ ((i : ℕ) / 100)).2) ^ 2) =
        0 := by
    intro i _
    have hz : ∀ t : ℝ,
        rawBezier (⟨0, 0, 0, false, none⟩ : Point) ⟨2, 0, 0, false, some 0⟩
          ⟨4, 0, 0, false, some 3⟩ ⟨3, 0, 0, false, none⟩ t = (0, 0) := by
      intro t
      simp [rawBezier]
    rw [hz, hz]
    norm_num
  rw [Finset.sum_congr rfl h, Finset.sum_const, Finset.card_range]
  norm_num

/-- C1 counterexample: the all-at-origin two-knot spline has two knots and a
positive requested count, yet `getRegularlyPlacedPoints` returns the empty
list (its total estimated length is 0, so every floor target is 0), refuting
the unconditional exactly-`count` guarantee. -/
theorem C1_counterexample :
    2 ≤ degenSpline.length ∧ getRegularlyPlacedPoints degenSpline 5 = [] := by
  refine ⟨by simp [degenSpline], ?_⟩
  unfold getRegularlyPlacedPoints
  rw [if_neg (by simp [degenSpline])]
  rw [degenSpline_beziers]
  simp [grppLoop, degenBz_getLength]

end BC

end
